import Mathlib

/- Verification development for the valhalla tiled-graph traversal layer
   (src/src/baldr/graphreader.cc) and the Tiles spatial index contract
   (src/test/tiles.cc).  Graph functions are translated statement by
   statement from graphreader.cc; small header helpers that the file calls
   but that are not part of the sampled sources are modelled from the spec
   and marked as such.  Machine integers are modelled as Nat (no arithmetic
   in the translated code overflows its 32/64-bit ranges on the inputs the
   theorems use), C++ partial lookups as Option, boolean branches as bif. -/

set_option maxRecDepth 4000

/-- Travel-use category of a directed edge (the subset of valhalla's Use
enum that the translated code distinguishes). -/
inductive Use where
  | kRoad : Use
  | kTransitConnection : Use
  | kEgressConnection : Use
  | kPlatformConnection : Use
  | kRail : Use
  | kBus : Use
deriving DecidableEq, Repr

/-- Modelled from the spec: GraphId is the (hierarchy level, tile number,
index-within-tile) triple addressing nodes, edges and tiles. -/
structure GraphId where
  level : Nat
  tileid : Nat
  id : Nat
deriving DecidableEq, Repr

/-- Modelled from the spec: the designated invalid sentinel (all bit-fields
saturated, mirroring kInvalidGraphId's 3/22/21-bit field split). -/
def GraphId.invalid : GraphId := ⟨7, 4194303, 2097151⟩

def GraphId.Is_Valid (g : GraphId) : Bool := g != GraphId.invalid

def GraphId.Tile_Base (g : GraphId) : GraphId := ⟨g.level, g.tileid, 0⟩

def GraphId.set_id (g : GraphId) (i : Nat) : GraphId := ⟨g.level, g.tileid, i⟩

/-- Modelled from the spec: one direction of travel along a segment, with
the attributes graphreader.cc reads (endnode, opposing index, tile-leaving
flag, shortcut/superseded masks, use, access mask, the shortcut-recovery
fingerprint attributes, speed, length, shape offset). -/
structure DirectedEdge where
  endnode : GraphId
  opp_index : Nat
  leaves_tile : Bool
  shortcut : Nat
  superseded : Nat
  use : Use
  forwardaccess : Nat
  sign : Bool
  classification : Nat
  roundabout : Bool
  link : Bool
  toll : Bool
  destonly : Bool
  unpaved : Bool
  surface : Nat
  speed : Nat
  length : Nat
  edgeinfo_offset : Nat
deriving DecidableEq, Repr

/-- Modelled from valhalla's DirectedEdge::is_shortcut: the shortcut mask
read as a boolean. -/
def DirectedEdge.is_shortcut (de : DirectedEdge) : Bool := de.shortcut != 0

/-- Modelled from valhalla's DirectedEdge::IsTransitLine: rail or bus use. -/
def DirectedEdge.IsTransitLine (de : DirectedEdge) : Bool :=
  de.use == Use.kRail || de.use == Use.kBus

/-- Modelled from the spec: a geographic point; the `valid` flag stands for
the float-sentinel validity test PointLL::IsValid. -/
structure PointLL where
  lng : ℚ
  lat : ℚ
  valid : Bool
deriving DecidableEq, Repr

def PointLL.invalid : PointLL := ⟨0, 0, false⟩

def PointLL.IsValid (p : PointLL) : Bool := p.valid

/-- Modelled from the spec: an axis-aligned bounding box of two points. -/
structure AABB2 where
  minpt : PointLL
  maxpt : PointLL
deriving DecidableEq, Repr

/-- Modelled from the spec: closed containment test on coordinates. -/
def AABB2.Contains (bb : AABB2) (p : PointLL) : Bool :=
  decide (bb.minpt.lng ≤ p.lng) && decide (p.lng ≤ bb.maxpt.lng) &&
  decide (bb.minpt.lat ≤ p.lat) && decide (p.lat ≤ bb.maxpt.lat)

/-- Modelled from the spec: expand a box to cover one more point. -/
def AABB2.Expand (bb : AABB2) (p : PointLL) : AABB2 :=
  ⟨⟨min bb.minpt.lng p.lng, min bb.minpt.lat p.lat, bb.minpt.valid⟩,
   ⟨max bb.maxpt.lng p.lng, max bb.maxpt.lat p.lat, bb.maxpt.valid⟩⟩

/-- Modelled from the spec: a graph vertex with its contiguous out-edge run,
its transition run, density, and position offsets from the tile base. -/
structure NodeInfo where
  edge_index : Nat
  edge_count : Nat
  transition_index : Nat
  transition_count : Nat
  density : Nat
  lng : ℚ
  lat : ℚ
deriving DecidableEq, Repr

/-- Modelled from valhalla's NodeInfo::latlng: position decoded relative to
the tile's base coordinate. -/
def NodeInfo.latlng (n : NodeInfo) (base : PointLL) : PointLL :=
  ⟨base.lng + n.lng, base.lat + n.lat, true⟩

/-- Modelled from the spec: a same-location link to another level. -/
structure NodeTransition where
  endnode : GraphId
deriving DecidableEq, Repr

/-- Modelled from the spec: one loaded tile: its own id, node array,
directed-edge array, transition array, base coordinate and per-edge shapes
(`edgeinfos` indexed by `edgeinfo_offset`). -/
structure GraphTile where
  graphid : GraphId
  nodes : List NodeInfo
  directededges : List DirectedEdge
  transitions : List NodeTransition
  base_ll : PointLL
  edgeinfos : List (List PointLL)
deriving DecidableEq, Repr

/-- Modelled from the spec: the reader's tile store, keyed by each tile's
own graphid (tile base). -/
structure GraphReader where
  tiles : List GraphTile
deriving DecidableEq, Repr

/-- Modelled from valhalla's GraphReader::GetGraphTile: resolve the tile
owning a GraphId, or none when it is not in the store. -/
def GetGraphTile (r : GraphReader) (id : GraphId) : Option GraphTile :=
  r.tiles.find? (fun t => t.graphid == id.Tile_Base)

/-- Resolve the directed edge addressed by a GraphId. -/
def edgeAt (r : GraphReader) (eid : GraphId) : Option DirectedEdge :=
  match GetGraphTile r eid with
  | none => none
  | some t => t.directededges[eid.id]?

/-- Modelled from the spec: the automobile bit of the access mask. -/
def kAutoAccess : Nat := 1

/-- Modelled from the spec: hierarchy levels are 0 (coarsest) .. 2
(finest/local); shortcuts never exist at the local level or at the transit
level above it, so TileHierarchy::levels().rbegin()->second.level is 2. -/
def TileHierarchy.localLevel : Nat := 2

/-- Translation of GraphReader::GetOpposingEdgeId (graphreader.cc lines
14-35): resolve the edge, bail to the invalid id on a missing tile or a
transit-line edge, then return the id at (end node's edge_index +
opp_index) inside the end node's tile. -/
def GetOpposingEdgeId (r : GraphReader) (edgeid : GraphId) : GraphId :=
  match GetGraphTile r edgeid with
  | none => GraphId.invalid
  | some tile =>
    match tile.directededges[edgeid.id]? with
    | none => GraphId.invalid
    | some directededge =>
      bif directededge.IsTransitLine then GraphId.invalid
      else
        match GetGraphTile r directededge.endnode with
        | none => GraphId.invalid
        | some tile2 =>
          match tile2.nodes[directededge.endnode.id]? with
          | none => GraphId.invalid
          | some n =>
            ⟨directededge.endnode.level, directededge.endnode.tileid,
             n.edge_index + directededge.opp_index⟩

/-- Modelled from the spec: the header convenience GetOpposingEdge —
GetOpposingEdgeId followed by a directed-edge lookup, null when invalid. -/
def GetOpposingEdge (r : GraphReader) (edgeid : GraphId) : Option DirectedEdge :=
  let opp := GetOpposingEdgeId r edgeid
  bif opp.Is_Valid then edgeAt r opp else none

/-- Modelled from the spec: the header helper edge_endnode — the edge's end
node, or invalid when the edge cannot be resolved. -/
def edge_endnode (r : GraphReader) (edgeid : GraphId) : GraphId :=
  match edgeAt r edgeid with
  | none => GraphId.invalid
  | some de => de.endnode

/-- Modelled from the spec: the header helper edge_startnode — the end node
of the opposing edge, or invalid when that cannot be resolved. -/
def edge_startnode (r : GraphReader) (edgeid : GraphId) : GraphId :=
  let opp := GetOpposingEdgeId r edgeid
  bif opp.Is_Valid then edge_endnode r opp else GraphId.invalid

/-- Verification predicate: per-edge opposing-pointer consistency of the
tile format (the spec's "by construction of the format" invariant): the
opposing edge of a non-transit edge is non-transit, ends at the edge's
start node, and its opposing index points back at the edge. -/
def oppCheckAt (r : GraphReader) (t : GraphTile) (i : Nat) (e : DirectedEdge) : Bool :=
  bif e.IsTransitLine then true else
  match GetGraphTile r e.endnode with
  | none => true
  | some t2 =>
    match t2.nodes[e.endnode.id]? with
    | none => false
    | some ni =>
      match t2.directededges[ni.edge_index + e.opp_index]? with
      | none => false
      | some o =>
        !o.IsTransitLine &&
        (GetGraphTile r o.endnode == some t) &&
        (match t.nodes[o.endnode.id]? with
         | none => false
         | some sn => sn.edge_index + o.opp_index == i)

/-- Verification predicate: the whole store satisfies `oppCheckAt`. -/
def GraphReader.oppConsistent (r : GraphReader) : Bool :=
  r.tiles.all fun t => (List.range t.directededges.length).all fun i =>
    match t.directededges[i]? with
    | none => true
    | some e => oppCheckAt r t i e

lemma GetGraphTile_congr (r : GraphReader) {a b : GraphId}
    (h : a.Tile_Base = b.Tile_Base) : GetGraphTile r a = GetGraphTile r b := by
  unfold GetGraphTile
  rw [h]

lemma GetGraphTile_graphid {r : GraphReader} {id : GraphId} {t : GraphTile}
    (h : GetGraphTile r id = some t) : t.graphid = id.Tile_Base := by
  have := List.find?_some h
  simpa using this

lemma GetGraphTile_mem {r : GraphReader} {id : GraphId} {t : GraphTile}
    (h : GetGraphTile r id = some t) : t ∈ r.tiles :=
  List.mem_of_find?_eq_some h

lemma getElem?_lt_length {α : Type} {l : List α} {i : Nat} {a : α}
    (h : l[i]? = some a) : i < l.length := by
  by_contra hge
  rw [List.getElem?_eq_none (Nat.le_of_not_lt hge)] at h
  exact Option.noConfusion h

lemma oppConsistent_at {r : GraphReader} (hr : r.oppConsistent = true)
    {t : GraphTile} (ht : t ∈ r.tiles) {i : Nat} {e : DirectedEdge}
    (he : t.directededges[i]? = some e) : oppCheckAt r t i e = true := by
  unfold GraphReader.oppConsistent at hr
  rw [List.all_eq_true] at hr
  have h1 := hr t ht
  rw [List.all_eq_true] at h1
  have h2 := h1 i (List.mem_range.mpr (getElem?_lt_length he))
  rw [he] at h2
  exact h2

/-- C3: for every non-transit directed edge of an opposing-consistent graph
whose end-node tile resolves, GetOpposingEdgeId applied twice returns the
original edge id (GetOpposingEdge is an involution). -/
theorem C3_opposing_involution (r : GraphReader) (eid : GraphId)
    (t : GraphTile) (e : DirectedEdge)
    (hr : r.oppConsistent = true)
    (ht : GetGraphTile r eid = some t)
    (he : t.directededges[eid.id]? = some e)
    (htr : e.IsTransitLine = false)
    (hend : (GetGraphTile r e.endnode).isSome) :
    GetOpposingEdgeId r (GetOpposingEdgeId r eid) = eid := by
  rcases Option.isSome_iff_exists.mp hend with ⟨t2, ht2⟩
  have hchk := oppConsistent_at hr (GetGraphTile_mem ht) he
  unfold oppCheckAt at hchk
  simp only [htr, cond_false, ht2] at hchk
  rcases hni : t2.nodes[e.endnode.id]? with _ | ni
  · simp only [hni] at hchk
    exact absurd hchk (by decide)
  · simp only [hni] at hchk
    rcases ho : t2.directededges[ni.edge_index + e.opp_index]? with _ | o
    · simp only [ho] at hchk
      exact absurd hchk (by decide)
    · simp only [ho] at hchk
      rcases hsn : t.nodes[o.endnode.id]? with _ | sn
      · simp only [hsn, Bool.and_false] at hchk
        exact absurd hchk (by decide)
      · simp only [hsn, Bool.and_eq_true, Bool.not_eq_true', beq_iff_eq,
          Nat.beq_eq_true_eq] at hchk
        obtain ⟨⟨hotr, hot⟩, hback⟩ := hchk
        have first : GetOpposingEdgeId r eid =
            ⟨e.endnode.level, e.endnode.tileid, ni.edge_index + e.opp_index⟩ := by
          unfold GetOpposingEdgeId
          simp only [ht, he, htr, cond_false, ht2, hni]
        rw [first]
        have hbase : (GraphId.mk e.endnode.level e.endnode.tileid
            (ni.edge_index + e.opp_index)).Tile_Base = e.endnode.Tile_Base := rfl
        have ht2b : GetGraphTile r (GraphId.mk e.endnode.level e.endnode.tileid
            (ni.edge_index + e.opp_index)) = some t2 := by
          rw [GetGraphTile_congr r hbase]; exact ht2
        unfold GetOpposingEdgeId
        simp only [ht2b, ho, hotr, cond_false, hot, hsn]
        have hgt : t.graphid = eid.Tile_Base := GetGraphTile_graphid ht
        have hgo : t.graphid = o.endnode.Tile_Base := GetGraphTile_graphid hot
        have hTB : o.endnode.Tile_Base = eid.Tile_Base := by rw [← hgo, hgt]
        have hlvl : o.endnode.level = eid.level := by
          have := congrArg GraphId.level hTB
          simpa [GraphId.Tile_Base] using this
        have htid : o.endnode.tileid = eid.tileid := by
          have := congrArg GraphId.tileid hTB
          simpa [GraphId.Tile_Base] using this
        rw [hlvl, htid, hback]

/-- Default edge used to build concrete fixtures (fields overridden per
fixture). -/
def baseEdge : DirectedEdge :=
  { endnode := ⟨0, 0, 0⟩, opp_index := 0, leaves_tile := false, shortcut := 0,
    superseded := 0, use := Use.kRoad, forwardaccess := 1, sign := false,
    classification := 0, roundabout := false, link := false, toll := false,
    destonly := false, unpaved := false, surface := 0, speed := 0,
    length := 0, edgeinfo_offset := 0 }

/-- Default node used to build concrete fixtures. -/
def mkNode (ei ec : Nat) : NodeInfo := ⟨ei, ec, 0, 0, 0, 0, 0⟩

/-- Concrete two-node fixture for the C3 witness. -/
def exTileC3 : GraphTile :=
  { graphid := ⟨0, 0, 0⟩
    nodes := [mkNode 0 1, mkNode 1 1]
    directededges :=
      [{ baseEdge with endnode := ⟨0, 0, 1⟩, length := 5 },
       { baseEdge with endnode := ⟨0, 0, 0⟩, length := 5 }]
    transitions := []
    base_ll := ⟨0, 0, true⟩
    edgeinfos := [] }

def exReaderC3 : GraphReader := ⟨[exTileC3]⟩

/-- Witness for C3 on a concrete two-node, two-edge tile. -/
theorem C3_opposing_involution_witness :
    exReaderC3.oppConsistent = true ∧
    GetOpposingEdgeId exReaderC3 (GetOpposingEdgeId exReaderC3 ⟨0, 0, 0⟩) = ⟨0, 0, 0⟩ :=
  ⟨by decide,
   C3_opposing_involution exReaderC3 ⟨0, 0, 0⟩ exTileC3
     { baseEdge with endnode := ⟨0, 0, 1⟩, length := 5 }
     (by decide) (by decide) (by decide) (by decide) (by decide)⟩

/-- Modelled from valhalla's GraphTile::GetDirectedEdges: the contiguous
out-edge run of a node, as (absolute index, edge) pairs. -/
def GraphTile.GetDirectedEdgesOf (tile : GraphTile) (node : NodeInfo) :
    List (Nat × DirectedEdge) :=
  (List.range node.edge_count).filterMap fun k =>
    (tile.directededges[node.edge_index + k]?).map fun de =>
      (node.edge_index + k, de)

/-- Modelled from valhalla's GraphTile::GetDirectedEdges taking a node
index. -/
def GraphTile.GetDirectedEdges (tile : GraphTile) (node_index : Nat) :
    List (Nat × DirectedEdge) :=
  match tile.nodes[node_index]? with
  | none => []
  | some node => tile.GetDirectedEdgesOf node

/-- Modelled from valhalla's GraphTile::GetNodeTransitions: the transition
run of a node addressed by GraphId. -/
def GraphTile.GetNodeTransitions (tile : GraphTile) (nodeid : GraphId) :
    List NodeTransition :=
  match tile.nodes[nodeid.id]? with
  | none => []
  | some node => (List.range node.transition_count).filterMap fun k =>
      tile.transitions[node.transition_index + k]?

/-- Modelled from the spec: the header helper GetEndNode — resolve the end
node of an edge, reloading the tile when the edge leaves it; returns the
(possibly new) tile and the node index. -/
def GetEndNode (r : GraphReader) (edge : DirectedEdge) (tile : GraphTile) :
    Option (GraphTile × Nat) :=
  match (bif edge.leaves_tile then GetGraphTile r edge.endnode else some tile) with
  | none => none
  | some tile =>
    bif decide (edge.endnode.id < tile.nodes.length) then
      some (tile, edge.endnode.id)
    else none

/-- Translation of the continuing_edge lambda in GraphReader::GetShortcut
(graphreader.cc lines 122-139): among the node's edges, skip the given
edge id, shortcut edges and transit/egress/platform connections; return
the remaining edge only when it is unique. -/
def continuingEdge (tile : GraphTile) (edgeid : GraphId) (node : NodeInfo) :
    Option DirectedEdge :=
  let rem := (tile.GetDirectedEdgesOf node).filter fun p =>
    !(p.1 == edgeid.id || p.2.is_shortcut ||
      p.2.use == Use.kTransitConnection || p.2.use == Use.kEgressConnection ||
      p.2.use == Use.kPlatformConnection)
  match rem with
  | [p] => some p.2
  | _ => none

/-- Outcome of one iteration of the GetShortcut walk. -/
inductive ShortcutStep where
  | fail : ShortcutStep
  | dead : ShortcutStep
  | found : GraphId → ShortcutStep
  | next : GraphTile → DirectedEdge → ShortcutStep
deriving DecidableEq, Repr

/-- Translation of the loop body of GraphReader::GetShortcut (graphreader.cc
lines 160-184): advance to the continuing edge's end node (reloading the
tile if it leaves the tile), take the opposing edge there, and either
return the superseding shortcut id, continue with the unique continuing
edge, or stop (`dead` when the continuing-edge count is zero or more than
one, `fail` when a lookup cannot resolve). -/
def GetShortcutStep (r : GraphReader) (tile : GraphTile) (cont_de : DirectedEdge) :
    ShortcutStep :=
  let endnode := cont_de.endnode
  match (bif cont_de.leaves_tile then GetGraphTile r endnode.Tile_Base else some tile) with
  | none => ShortcutStep.fail
  | some tile =>
    match tile.nodes[endnode.id]? with
    | none => ShortcutStep.fail
    | some node =>
      let idx := node.edge_index + cont_de.opp_index
      let edgeid : GraphId := ⟨endnode.level, endnode.tileid, idx⟩
      match tile.directededges[idx]? with
      | none => ShortcutStep.fail
      | some directededge =>
        bif directededge.superseded != 0 then
          ShortcutStep.found
            ⟨endnode.level, endnode.tileid,
             node.edge_index + (directededge.superseded - 1)⟩
        else
          match continuingEdge tile edgeid node with
          | none => ShortcutStep.dead
          | some cont => ShortcutStep.next tile cont

/-- The while(true) walk of GraphReader::GetShortcut, with fuel standing in
for the unbounded C++ loop (fuel exhaustion models non-termination). -/
def GetShortcutLoop (r : GraphReader) : Nat → GraphTile → DirectedEdge → GraphId
  | 0, _, _ => GraphId.invalid
  | fuel + 1, tile, cont => match GetShortcutStep r tile cont with
    | ShortcutStep.fail => GraphId.invalid
    | ShortcutStep.dead => GraphId.invalid
    | ShortcutStep.found g => g
    | ShortcutStep.next t c => GetShortcutLoop r fuel t c

/-- The state of the GetShortcut walk after advancing k full steps (none
when it stops earlier). -/
def shortcutWalkState (r : GraphReader) :
    Nat → GraphTile → DirectedEdge → Option (GraphTile × DirectedEdge)
  | 0, t, c => some (t, c)
  | k + 1, t, c => match GetShortcutStep r t c with
    | ShortcutStep.next t2 c2 => shortcutWalkState r k t2 c2
    | _ => none

/-- Translation of GraphReader::GetShortcut (graphreader.cc lines 118-186):
invalid at or above the local level; the edge itself when it is a shortcut;
otherwise walk backward starting from the opposing edge. -/
def GetShortcut (r : GraphReader) (fuel : Nat) (id : GraphId) : GraphId :=
  bif decide (TileHierarchy.localLevel ≤ id.level) then GraphId.invalid else
  match GetGraphTile r id with
  | none => GraphId.invalid
  | some tile =>
    match tile.directededges[id.id]? with
    | none => GraphId.invalid
    | some directededge =>
      bif directededge.is_shortcut then id
      else
        match GetOpposingEdge r id with
        | none => GraphId.invalid
        | some cont => GetShortcutLoop r fuel tile cont

/-- Translation of the fuzzy edge-matching condition in
GraphReader::RecoverShortcut (graphreader.cc lines 242-248): not the edge
back to the previous node, not a shortcut, auto access, and the attribute
fingerprint of the shortcut (speed deliberately excluded). -/
def recoverMatch (shortcut : DirectedEdge) (begin_node : GraphId)
    (edge : DirectedEdge) : Bool :=
  begin_node != edge.endnode && !edge.is_shortcut &&
  (edge.forwardaccess &&& kAutoAccess) != 0 && edge.sign == shortcut.sign &&
  edge.use == shortcut.use && edge.classification == shortcut.classification &&
  edge.roundabout == shortcut.roundabout && edge.link == shortcut.link &&
  edge.toll == shortcut.toll && edge.destonly == shortcut.destonly &&
  edge.unpaved == shortcut.unpaved && edge.surface == shortcut.surface

/-- Translation of the edge-walking loop of GraphReader::RecoverShortcut
(graphreader.cc lines 226-277), with fuel standing in for the unbounded
C++ loop: stop at the shortcut's end node (failing when the accumulated
length is below the recorded one), otherwise take the first
fingerprint-matching edge at the next node, accumulate its length, and
fail on a missing match or a length overrun. -/
def RecoverShortcutLoop (r : GraphReader) (shortcut : DirectedEdge)
    (shortcut_id : GraphId) :
    Nat → GraphTile → DirectedEdge → GraphId → List GraphId → Nat → List GraphId
  | 0, _, _, _, _, _ => [shortcut_id]
  | fuel + 1, tile, current_edge, begin_node, edges, accumulated_length =>
    bif current_edge.endnode == shortcut.endnode then
      bif decide (accumulated_length < shortcut.length) then [shortcut_id]
      else edges
    else
      match GetEndNode r current_edge tile with
      | none => [shortcut_id]
      | some (tile, node_index) =>
        match (tile.GetDirectedEdges node_index).find? (fun p =>
            recoverMatch shortcut begin_node p.2) with
        | none => [shortcut_id]
        | some (idx, edge) =>
          let edges := edges ++ [tile.graphid.set_id idx]
          let accumulated_length := accumulated_length + edge.length
          bif decide (shortcut.length < accumulated_length) then [shortcut_id]
          else
            RecoverShortcutLoop r shortcut shortcut_id fuel tile edge
              (tile.graphid.set_id node_index) edges accumulated_length

/-- Translation of GraphReader::RecoverShortcut (graphreader.cc lines
189-281): resolve the shortcut, find its begin node, seed the walk with the
superseded edge leaving that node, then walk the matching chain. -/
def RecoverShortcut (r : GraphReader) (fuel : Nat) (shortcut_id : GraphId) :
    List GraphId :=
  match GetGraphTile r shortcut_id with
  | none => [shortcut_id]
  | some tile =>
    match tile.directededges[shortcut_id.id]? with
    | none => [shortcut_id]
    | some shortcut =>
      bif !shortcut.is_shortcut then [shortcut_id]
      else
        let begin_node := edge_startnode r shortcut_id
        bif !begin_node.Is_Valid then [shortcut_id]
        else
          match (tile.GetDirectedEdges begin_node.id).find? (fun p =>
              (shortcut.shortcut &&& p.2.superseded) != 0) with
          | none => [shortcut_id]
          | some (idx, de) =>
            RecoverShortcutLoop r shortcut shortcut_id fuel tile de begin_node
              [tile.graphid.set_id idx] de.length

/-- Translation of the end-node resolution steps of
GraphReader::AreEdgesConnectedForward (graphreader.cc lines 89-110):
edge1's end node, tile reload when it lies in another tile, then the first
node transition to edge2's level when the levels differ. -/
def forwardTargetNode (r : GraphReader) (edge1 edge2 : GraphId) :
    Option (GraphId × GraphTile) :=
  let endnode := edge_endnode r edge1
  match (bif endnode.Tile_Base != edge1.Tile_Base then GetGraphTile r endnode
         else GetGraphTile r edge1) with
  | none => none
  | some tile =>
    bif edge2.level != endnode.level then
      match (tile.GetNodeTransitions endnode).find? (fun tr =>
          tr.endnode.level == edge2.level) with
      | none => some (endnode, tile)
      | some tr =>
        match GetGraphTile r tr.endnode with
        | none => none
        | some tile2 => some (tr.endnode, tile2)
    else some (endnode, tile)

/-- Translation of GraphReader::AreEdgesConnectedForward (graphreader.cc
lines 86-115): resolve the target node, then test whether edge2's
index-within-tile falls inside that node's out-edge range. -/
def AreEdgesConnectedForward (r : GraphReader) (edge1 edge2 : GraphId) : Bool :=
  match forwardTargetNode r edge1 edge2 with
  | none => false
  | some (endnode, tile) =>
    match tile.nodes[endnode.id]? with
    | none => false
    | some node =>
      decide (node.edge_index ≤ edge2.id) &&
      decide (edge2.id < node.edge_index + node.edge_count)

/-- Translation of GraphReader::GetMinimumBoundingBox (graphreader.cc lines
324-360): scan the given tiles (the ids are supplied by the caller,
standing for TileHierarchy::GetGraphIds(bb), which is not part of the
sampled sources), and for every node inside the input box initialize the
running box on first contact and expand it with the shapes of the node's
outgoing edges.  The cache Trim/OverCommitted bookkeeping does not affect
the returned value and is not modelled. -/
def GetMinimumBoundingBox (r : GraphReader) (ids : List GraphId) (bb : AABB2) :
    AABB2 :=
  ids.foldl (fun min_bb tile_id =>
    match GetGraphTile r tile_id with
    | none => min_bb
    | some tile =>
      (List.range tile.nodes.length).foldl (fun min_bb i =>
        match tile.nodes[i]? with
        | none => min_bb
        | some node =>
          let node_ll := node.latlng tile.base_ll
          bif bb.Contains node_ll then
            let min_bb := bif !min_bb.minpt.IsValid then
              AABB2.mk node_ll node_ll else min_bb
            (List.range node.edge_count).foldl (fun mb k =>
              match tile.directededges[node.edge_index + k]? with
              | none => mb
              | some diredge =>
                ((tile.edgeinfos[diredge.edgeinfo_offset]?).getD []).foldl
                  AABB2.Expand mb) min_bb
          else min_bb) min_bb)
    (AABB2.mk PointLL.invalid PointLL.invalid)

lemma GetShortcutLoop_dead (r : GraphReader) :
    ∀ (k : Nat) (t : GraphTile) (c : DirectedEdge) (fuel : Nat)
      (t2 : GraphTile) (c2 : DirectedEdge),
      shortcutWalkState r k t c = some (t2, c2) →
      GetShortcutStep r t2 c2 = ShortcutStep.dead →
      k < fuel → GetShortcutLoop r fuel t c = GraphId.invalid := by
  intro k
  induction k with
  | zero =>
    intro t c fuel t2 c2 hw hd hf
    cases fuel with
    | zero => omega
    | succ f =>
      simp only [shortcutWalkState, Option.some.injEq, Prod.mk.injEq] at hw
      obtain ⟨rfl, rfl⟩ := hw
      simp only [GetShortcutLoop, hd]
  | succ n ih =>
    intro t c fuel t2 c2 hw hd hf
    cases fuel with
    | zero => omega
    | succ f =>
      simp only [shortcutWalkState] at hw
      cases hst : GetShortcutStep r t c with
      | fail => rw [hst] at hw; exact Option.noConfusion hw
      | dead => rw [hst] at hw; exact Option.noConfusion hw
      | found g => rw [hst] at hw; exact Option.noConfusion hw
      | next t1 c1 =>
        rw [hst] at hw
        simp only [GetShortcutLoop, hst]
        exact ih t1 c1 f t2 c2 hw hd (by omega)

/-- Fixture: one level-0 tile whose only edge is a shortcut. -/
def exTileC4 : GraphTile :=
  { graphid := ⟨0, 0, 0⟩, nodes := [mkNode 0 1],
    directededges := [{ baseEdge with shortcut := 1 }],
    transitions := [], base_ll := ⟨0, 0, true⟩, edgeinfos := [] }

def exReaderC4 : GraphReader := ⟨[exTileC4]⟩

/-- C4 counterexample: a shortcut edge on level 0 — the coarsest level in
the spec's ordering — for which GetShortcut returns the edge id itself and
not the invalid id, refuting the claim that the coarsest (rather than the
finest, no-shortcut) level always yields invalid. -/
theorem C4_counterexample :
    GetShortcut exReaderC4 5 ⟨0, 0, 0⟩ = ⟨0, 0, 0⟩ ∧
    (GraphId.mk 0 0 0).level = 0 ∧
    GetShortcut exReaderC4 5 ⟨0, 0, 0⟩ ≠ GraphId.invalid := by decide

/-- C4 amended: GetShortcut returns invalid whenever the edge's level is at
or above the finest (local, no-shortcut) level; below it, it returns the
input id unchanged when the edge is a shortcut; and it returns invalid
whenever the backward walk stops — at the first step because the opposing
edge cannot be resolved, or at any later step because the number of
continuing edges at the node (excluding the arriving edge, shortcut edges
and transit/egress/platform connections) is zero or more than one. -/
theorem C4_amended :
    (∀ (r : GraphReader) (fuel : Nat) (id : GraphId),
      TileHierarchy.localLevel ≤ id.level →
      GetShortcut r fuel id = GraphId.invalid) ∧
    (∀ (r : GraphReader) (fuel : Nat) (id : GraphId) (tile : GraphTile)
      (de : DirectedEdge),
      id.level < TileHierarchy.localLevel → GetGraphTile r id = some tile →
      tile.directededges[id.id]? = some de → de.is_shortcut = true →
      GetShortcut r fuel id = id) ∧
    (∀ (r : GraphReader) (fuel : Nat) (id : GraphId) (tile : GraphTile)
      (de : DirectedEdge),
      id.level < TileHierarchy.localLevel → GetGraphTile r id = some tile →
      tile.directededges[id.id]? = some de → de.is_shortcut = false →
      GetOpposingEdge r id = none →
      GetShortcut r fuel id = GraphId.invalid) ∧
    (∀ (r : GraphReader) (fuel k : Nat) (id : GraphId) (tile : GraphTile)
      (de cont : DirectedEdge) (t : GraphTile) (c : DirectedEdge),
      id.level < TileHierarchy.localLevel → GetGraphTile r id = some tile →
      tile.directededges[id.id]? = some de → de.is_shortcut = false →
      GetOpposingEdge r id = some cont →
      shortcutWalkState r k tile cont = some (t, c) →
      GetShortcutStep r t c = ShortcutStep.dead →
      k < fuel →
      GetShortcut r fuel id = GraphId.invalid) := by
  refine ⟨?_, ?_, ?_, ?_⟩
  · intro r fuel id h
    unfold GetShortcut
    rw [decide_eq_true h, cond_true]
  · intro r fuel id tile de h ht hde hsc
    unfold GetShortcut
    rw [decide_eq_false (Nat.not_le.mpr h)]
    simp only [cond_false, ht, hde, hsc, cond_true]
  · intro r fuel id tile de h ht hde hsc hopp
    unfold GetShortcut
    rw [decide_eq_false (Nat.not_le.mpr h)]
    simp only [cond_false, ht, hde, hsc, hopp]
  · intro r fuel k id tile de cont t c h ht hde hsc hopp hw hd hk
    unfold GetShortcut
    rw [decide_eq_false (Nat.not_le.mpr h)]
    simp only [cond_false, ht, hde, hsc, hopp]
    exact GetShortcutLoop_dead r k tile cont fuel t c hw hd hk

/-- Fixture: an edge whose end node lies in an absent tile (the opposing
edge cannot be resolved). -/
def exTileC4c : GraphTile :=
  { graphid := ⟨0, 0, 0⟩, nodes := [mkNode 0 1],
    directededges := [{ baseEdge with endnode := ⟨0, 1, 0⟩ }],
    transitions := [], base_ll := ⟨0, 0, true⟩, edgeinfos := [] }

def exReaderC4c : GraphReader := ⟨[exTileC4c]⟩

/-- Fixture: a node with three real out-edges, making the backward walk
ambiguous at its first step. -/
def exTileC4d : GraphTile :=
  { graphid := ⟨0, 0, 0⟩
    nodes := [mkNode 0 3, mkNode 3 1, mkNode 4 1, mkNode 5 1]
    directededges :=
      [{ baseEdge with endnode := ⟨0, 0, 1⟩ },
       { baseEdge with endnode := ⟨0, 0, 2⟩ },
       { baseEdge with endnode := ⟨0, 0, 3⟩ },
       { baseEdge with endnode := ⟨0, 0, 0⟩ },
       { baseEdge with endnode := ⟨0, 0, 0⟩, opp_index := 1 },
       { baseEdge with endnode := ⟨0, 0, 0⟩, opp_index := 2 }]
    transitions := []
    base_ll := ⟨0, 0, true⟩
    edgeinfos := [] }

def exReaderC4d : GraphReader := ⟨[exTileC4d]⟩

/-- Witness for C4 amended: all four conclusions at concrete inputs. -/
theorem C4_amended_witness :
    GetShortcut exReaderC3 5 ⟨2, 0, 0⟩ = GraphId.invalid ∧
    GetShortcut exReaderC4 5 ⟨0, 0, 0⟩ = ⟨0, 0, 0⟩ ∧
    GetShortcut exReaderC4c 5 ⟨0, 0, 0⟩ = GraphId.invalid ∧
    GetShortcut exReaderC4d 5 ⟨0, 0, 0⟩ = GraphId.invalid :=
  ⟨C4_amended.1 exReaderC3 5 ⟨2, 0, 0⟩ (by decide),
   C4_amended.2.1 exReaderC4 5 ⟨0, 0, 0⟩ exTileC4
     { baseEdge with shortcut := 1 }
     (by decide) (by decide) (by decide) (by decide),
   C4_amended.2.2.1 exReaderC4c 5 ⟨0, 0, 0⟩ exTileC4c
     { baseEdge with endnode := ⟨0, 1, 0⟩ }
     (by decide) (by decide) (by decide) (by decide) (by decide),
   C4_amended.2.2.2 exReaderC4d 5 0 ⟨0, 0, 0⟩ exTileC4d
     { baseEdge with endnode := ⟨0, 0, 1⟩ }
     { baseEdge with endnode := ⟨0, 0, 0⟩ }
     exTileC4d
     { baseEdge with endnode := ⟨0, 0, 0⟩ }
     (by decide) (by decide) (by decide) (by decide) (by decide) (by decide)
     (by decide) (by decide)⟩

/-- Predicate on a node: its out-edge range contains the edge index j. -/
def edgeRangePred (j : Nat) (n : NodeInfo) : Bool :=
  decide (n.edge_index ≤ j) && decide (j < n.edge_index + n.edge_count)

/-- Modelled from the spec (the claim's notion, kept separate from the code
translation for comparison): the start node of an edge is the node of the
edge's own tile whose out-edge range contains the edge's index. -/
def specStartNode (r : GraphReader) (eid : GraphId) : Option GraphId :=
  match GetGraphTile r eid with
  | none => none
  | some t =>
    match t.nodes.findIdx? (edgeRangePred eid.id) with
    | none => none
    | some i => some ⟨t.graphid.level, t.graphid.tileid, i⟩

/-- The node edge-runs form a contiguous partition starting at the given
offset (each node's edge_index is the running total of earlier counts). -/
def nodesChainFrom : Nat → List NodeInfo → Bool
  | _, [] => true
  | s, n :: rest => n.edge_index == s && nodesChainFrom (s + n.edge_count) rest

/-- The tile's nodes partition its edge array into contiguous runs. -/
def GraphTile.partitioned (t : GraphTile) : Bool := nodesChainFrom 0 t.nodes

lemma chainFrom_le : ∀ (l : List NodeInfo) (s : Nat),
    nodesChainFrom s l = true → ∀ x ∈ l, s ≤ x.edge_index := by
  intro l
  induction l with
  | nil => intro s _ x hx; exact absurd hx (List.not_mem_nil x)
  | cons m rest ih =>
    intro s h x hx
    simp only [nodesChainFrom, Bool.and_eq_true, Nat.beq_eq_true_eq] at h
    obtain ⟨h1, h2⟩ := h
    rcases List.mem_cons.mp hx with rfl | hx2
    · omega
    · have := ih (s + m.edge_count) h2 x hx2
      omega

lemma chain_mono : ∀ (l : List NodeInfo) (s : Nat),
    nodesChainFrom s l = true → ∀ (i j : Nat) (ni nj : NodeInfo), i < j →
      l[i]? = some ni → l[j]? = some nj →
      ni.edge_index + ni.edge_count ≤ nj.edge_index := by
  intro l
  induction l with
  | nil => intro s _ i j ni nj _ hni _; simp at hni
  | cons m rest ih =>
    intro s h i j ni nj hij hni hnj
    simp only [nodesChainFrom, Bool.and_eq_true, Nat.beq_eq_true_eq] at h
    obtain ⟨h1, h2⟩ := h
    cases j with
    | zero => omega
    | succ j2 =>
      rw [List.getElem?_cons_succ] at hnj
      cases i with
      | zero =>
        rw [List.getElem?_cons_zero] at hni
        injection hni with hni
        subst hni
        have := chainFrom_le rest (s + m.edge_count) h2 nj (List.getElem?_mem hnj)
        omega
      | succ i2 =>
        rw [List.getElem?_cons_succ] at hni
        exact ih (s + m.edge_count) h2 i2 j2 ni nj (by omega) hni hnj

lemma findIdx?_of_chain {l : List NodeInfo} {j i : Nat} {n : NodeInfo}
    (hc : nodesChainFrom 0 l = true) (hget : l[i]? = some n)
    (h1 : n.edge_index ≤ j) (h2 : j < n.edge_index + n.edge_count) :
    l.findIdx? (edgeRangePred j) = some i := by
  rw [List.findIdx?_eq_some_iff_getElem]
  have hlt : i < l.length := getElem?_lt_length hget
  refine ⟨hlt, ?_, ?_⟩
  · have hn : l[i] = n := by
      rw [← Option.some_inj, ← List.getElem?_eq_getElem hlt]
      exact hget
    rw [hn]
    unfold edgeRangePred
    simp only [Bool.and_eq_true, decide_eq_true_eq]
    exact ⟨h1, h2⟩
  · intro k hki
    have hk : k < l.length := Nat.lt_trans hki hlt
    have hgk : l[k]? = some l[k] := List.getElem?_eq_getElem hk
    have hm := chain_mono l 0 hc k i (l[k]) n hki hgk hget
    unfold edgeRangePred
    simp only [Bool.and_eq_true, decide_eq_true_eq, not_and, Bool.not_eq_true]
    intro hle
    omega

lemma findIdx?_range_extract {l : List NodeInfo} {j i : Nat}
    (h : l.findIdx? (edgeRangePred j) = some i) :
    ∃ n, l[i]? = some n ∧ n.edge_index ≤ j ∧ j < n.edge_index + n.edge_count := by
  rw [List.findIdx?_eq_some_iff_getElem] at h
  obtain ⟨hlt, hp, _⟩ := h
  unfold edgeRangePred at hp
  simp only [Bool.and_eq_true, decide_eq_true_eq] at hp
  exact ⟨l[i], List.getElem?_eq_getElem hlt, hp.1, hp.2⟩


lemma forwardTargetNode_tile {r : GraphReader} {e1 e2 en : GraphId} {t : GraphTile}
    (h : forwardTargetNode r e1 e2 = some (en, t)) : GetGraphTile r en = some t := by
  unfold forwardTargetNode at h
  cases hB : (edge_endnode r e1).Tile_Base != e1.Tile_Base with
  | false =>
    simp only [hB, cond_false] at h
    rcases ht1 : GetGraphTile r e1 with _ | tile
    · rw [ht1] at h; exact Option.noConfusion h
    rw [ht1] at h
    have hEq : GetGraphTile r (edge_endnode r e1) = some tile := by
      rw [GetGraphTile_congr r (bne_eq_false_iff_eq.mp hB)]
      exact ht1
    cases hL : e2.level != (edge_endnode r e1).level with
    | false =>
      simp only [hL, cond_false, Option.some.injEq, Prod.mk.injEq] at h
      obtain ⟨rfl, rfl⟩ := h
      exact hEq
    | true =>
      simp only [hL, cond_true] at h
      rcases hF : (tile.GetNodeTransitions (edge_endnode r e1)).find? (fun tr =>
          tr.endnode.level == e2.level) with _ | tr
      · simp only [hF, Option.some.injEq, Prod.mk.injEq] at h
        obtain ⟨rfl, rfl⟩ := h
        exact hEq
      · simp only [hF] at h
        rcases hG : GetGraphTile r tr.endnode with _ | tile2
        · simp only [hG] at h
          exact Option.noConfusion h
        · simp only [hG, Option.some.injEq, Prod.mk.injEq] at h
          obtain ⟨rfl, rfl⟩ := h
          exact hG
  | true =>
    simp only [hB, cond_true] at h
    rcases htE : GetGraphTile r (edge_endnode r e1) with _ | tile
    · rw [htE] at h; exact Option.noConfusion h
    rw [htE] at h
    cases hL : e2.level != (edge_endnode r e1).level with
    | false =>
      simp only [hL, cond_false, Option.some.injEq, Prod.mk.injEq] at h
      obtain ⟨rfl, rfl⟩ := h
      exact htE
    | true =>
      simp only [hL, cond_true] at h
      rcases hF : (tile.GetNodeTransitions (edge_endnode r e1)).find? (fun tr =>
          tr.endnode.level == e2.level) with _ | tr
      · simp only [hF, Option.some.injEq, Prod.mk.injEq] at h
        obtain ⟨rfl, rfl⟩ := h
        exact htE
      · simp only [hF] at h
        rcases hG : GetGraphTile r tr.endnode with _ | tile2
        · simp only [hG] at h
          exact Option.noConfusion h
        · simp only [hG, Option.some.injEq, Prod.mk.injEq] at h
          obtain ⟨rfl, rfl⟩ := h
          exact hG

/-- Fixture for the C5 counterexample: two disjoint one-node tiles at the
same level; the second tile's only edge has index 0, which happens to fall
in the out-edge range of the first tile's node. -/
def exTileC5a : GraphTile :=
  { graphid := ⟨0, 0, 0⟩, nodes := [mkNode 0 1],
    directededges := [{ baseEdge with endnode := ⟨0, 0, 0⟩ }],
    transitions := [], base_ll := ⟨0, 0, true⟩, edgeinfos := [] }

def exTileC5b : GraphTile :=
  { graphid := ⟨0, 1, 0⟩, nodes := [mkNode 0 1],
    directededges := [{ baseEdge with endnode := ⟨0, 1, 0⟩ }],
    transitions := [], base_ll := ⟨0, 0, true⟩, edgeinfos := [] }

def exReaderC5 : GraphReader := ⟨[exTileC5a, exTileC5b]⟩

/-- C5 counterexample: AreEdgesConnectedForward compares only the index of
edge2 against the end node's out-edge range, never edge2's tile, so it
reports two edges of unrelated tiles as connected: here edge2's start node
is node (0,1,0) while edge1's end node is node (0,0,0), yet the function
returns true. -/
theorem C5_counterexample :
    AreEdgesConnectedForward exReaderC5 ⟨0, 0, 0⟩ ⟨0, 1, 0⟩ = true ∧
    edge_endnode exReaderC5 ⟨0, 0, 0⟩ = ⟨0, 0, 0⟩ ∧
    specStartNode exReaderC5 ⟨0, 1, 0⟩ = some ⟨0, 1, 0⟩ ∧
    GraphId.mk 0 1 0 ≠ GraphId.mk 0 0 0 := by decide

/-- C5 amended: when edge2 lies in the same tile as the resolved target
node (edge1's end node, after a cross-level transition when needed) and
that tile's nodes partition its edge array, AreEdgesConnectedForward is
true exactly when edge2's start node is that target node; for an edge2 of
another tile the function compares only the index and can also answer
true (see the counterexample). -/
theorem C5_amended (r : GraphReader) (e1 e2 en : GraphId) (t : GraphTile)
    (hft : forwardTargetNode r e1 e2 = some (en, t))
    (hpart : t.partitioned = true)
    (htb : e2.Tile_Base = en.Tile_Base) :
    AreEdgesConnectedForward r e1 e2 = true ↔ specStartNode r e2 = some en := by
  have htile : GetGraphTile r en = some t := forwardTargetNode_tile hft
  have htile2 : GetGraphTile r e2 = some t := by
    rw [GetGraphTile_congr r htb]; exact htile
  have hgid : t.graphid = en.Tile_Base := GetGraphTile_graphid htile
  unfold GraphTile.partitioned at hpart
  constructor
  · intro h
    unfold AreEdgesConnectedForward at h
    simp only [hft] at h
    rcases hn : t.nodes[en.id]? with _ | node
    · simp only [hn] at h
      exact absurd h (by decide)
    simp only [hn, Bool.and_eq_true, decide_eq_true_eq] at h
    obtain ⟨h1, h2⟩ := h
    unfold specStartNode
    simp only [htile2, findIdx?_of_chain hpart hn h1 h2]
    rw [hgid]
    rfl
  · intro h
    unfold specStartNode at h
    simp only [htile2] at h
    rcases hfi : t.nodes.findIdx? (edgeRangePred e2.id) with _ | i
    · simp only [hfi] at h
      exact Option.noConfusion h
    simp only [hfi, Option.some.injEq] at h
    have hid : i = en.id := by
      have := congrArg GraphId.id h
      simpa using this
    subst hid
    obtain ⟨n, hget, hr1, hr2⟩ := findIdx?_range_extract hfi
    unfold AreEdgesConnectedForward
    simp only [hft, hget, Bool.and_eq_true, decide_eq_true_eq]
    exact ⟨hr1, hr2⟩

/-- Fixture for the C5 witness: a two-node tile where edge 1 starts at
edge 0's end node. -/
def exTileC5w : GraphTile :=
  { graphid := ⟨0, 0, 0⟩, nodes := [mkNode 0 1, mkNode 1 1],
    directededges :=
      [{ baseEdge with endnode := ⟨0, 0, 1⟩ },
       { baseEdge with endnode := ⟨0, 0, 0⟩ }],
    transitions := [], base_ll := ⟨0, 0, true⟩, edgeinfos := [] }

def exReaderC5w : GraphReader := ⟨[exTileC5w]⟩

/-- Witness for C5 amended at a concrete connected pair. -/
theorem C5_amended_witness :
    (AreEdgesConnectedForward exReaderC5w ⟨0, 0, 0⟩ ⟨0, 0, 1⟩ = true ↔
      specStartNode exReaderC5w ⟨0, 0, 1⟩ = some ⟨0, 0, 1⟩) :=
  C5_amended exReaderC5w ⟨0, 0, 0⟩ ⟨0, 0, 1⟩ ⟨0, 0, 1⟩ exTileC5w
    (by decide) (by decide) (by decide)

/-- Length of the edge a GraphId resolves to (0 when unresolvable). -/
def edgeLenAt (r : GraphReader) (eid : GraphId) : Nat :=
  match edgeAt r eid with
  | none => 0
  | some e => e.length

/-- Accumulated length of a list of edge ids. -/
def sumEdgeLengths (r : GraphReader) (es : List GraphId) : Nat :=
  (es.map (edgeLenAt r)).sum

/-- Verification predicate: every stored tile is keyed by its own base id
and resolvable through GetGraphTile. -/
def GraphReader.selfKeyed (r : GraphReader) : Bool :=
  r.tiles.all fun t => (t.graphid.id == 0) && (GetGraphTile r t.graphid == some t)

lemma selfKeyed_lookup {r : GraphReader} (h : r.selfKeyed = true) {t : GraphTile}
    (ht : t ∈ r.tiles) : t.graphid.id = 0 ∧ GetGraphTile r t.graphid = some t := by
  unfold GraphReader.selfKeyed at h
  rw [List.all_eq_true] at h
  have h2 := h t ht
  simp only [Bool.and_eq_true, beq_iff_eq] at h2
  exact h2

lemma Tile_Base_of_id_zero {g : GraphId} (h : g.id = 0) : g.Tile_Base = g := by
  cases g
  simp only [GraphId.Tile_Base]
  simp_all

lemma edgeAt_set_id {r : GraphReader} (hk : r.selfKeyed = true) {t : GraphTile}
    (ht : t ∈ r.tiles) {idx : Nat} {e : DirectedEdge}
    (he : t.directededges[idx]? = some e) :
    edgeAt r (t.graphid.set_id idx) = some e := by
  obtain ⟨h0, hlook⟩ := selfKeyed_lookup hk ht
  have hcong : GetGraphTile r (t.graphid.set_id idx) = GetGraphTile r t.graphid := by
    apply GetGraphTile_congr
    show (t.graphid.set_id idx).Tile_Base = t.graphid.Tile_Base
    rfl
  unfold edgeAt
  rw [hcong, hlook]
  exact he

lemma mem_GetDirectedEdges {t : GraphTile} {ni : Nat} {p : Nat × DirectedEdge}
    (h : p ∈ t.GetDirectedEdges ni) : t.directededges[p.1]? = some p.2 := by
  unfold GraphTile.GetDirectedEdges at h
  rcases hn : t.nodes[ni]? with _ | node
  · rw [hn] at h
    exact absurd h (List.not_mem_nil p)
  rw [hn] at h
  unfold GraphTile.GetDirectedEdgesOf at h
  rw [List.mem_filterMap] at h
  obtain ⟨k, _, hmap⟩ := h
  rcases hde : t.directededges[node.edge_index + k]? with _ | de
  · rw [hde] at hmap
    exact Option.noConfusion hmap
  · rw [hde] at hmap
    simp only [Option.map_some', Option.some.injEq] at hmap
    rw [← hmap]
    exact hde

lemma find?_GetDirectedEdges {t : GraphTile} {ni : Nat}
    {pred : Nat × DirectedEdge → Bool} {p : Nat × DirectedEdge}
    (h : (t.GetDirectedEdges ni).find? pred = some p) :
    t.directededges[p.1]? = some p.2 :=
  mem_GetDirectedEdges (List.mem_of_find?_eq_some h)

lemma GetEndNode_mem {r : GraphReader} {e : DirectedEdge} {tile t2 : GraphTile}
    {i : Nat} (h : GetEndNode r e tile = some (t2, i)) (ht : tile ∈ r.tiles) :
    t2 ∈ r.tiles := by
  unfold GetEndNode at h
  cases hlv : e.leaves_tile with
  | false =>
    simp only [hlv, cond_false] at h
    cases hd : decide (e.endnode.id < tile.nodes.length) with
    | false =>
      simp only [hd, cond_false] at h
      exact Option.noConfusion h
    | true =>
      simp only [hd, cond_true, Option.some.injEq, Prod.mk.injEq] at h
      obtain ⟨rfl, _⟩ := h
      exact ht
  | true =>
    simp only [hlv, cond_true] at h
    rcases hg : GetGraphTile r e.endnode with _ | t3
    · simp only [hg] at h
      exact Option.noConfusion h
    · simp only [hg] at h
      cases hd : decide (e.endnode.id < t3.nodes.length) with
      | false =>
        simp only [hd, cond_false] at h
        exact Option.noConfusion h
      | true =>
        simp only [hd, cond_true, Option.some.injEq, Prod.mk.injEq] at h
        obtain ⟨rfl, _⟩ := h
        exact GetGraphTile_mem hg

lemma recoverLoop_spec (r : GraphReader) (hk : r.selfKeyed = true)
    (sc : DirectedEdge) (sid : GraphId) :
    ∀ (fuel : Nat) (tile : GraphTile) (cur : DirectedEdge) (bn : GraphId)
      (es : List GraphId) (acc : Nat), tile ∈ r.tiles →
      sumEdgeLengths r es = acc →
      RecoverShortcutLoop r sc sid fuel tile cur bn es acc = [sid] ∨
      (RecoverShortcutLoop r sc sid fuel tile cur bn es acc = es ∧
        sc.length ≤ acc) ∨
      (∃ out, RecoverShortcutLoop r sc sid fuel tile cur bn es acc = out ∧
        sumEdgeLengths r out = sc.length) := by
  intro fuel
  induction fuel with
  | zero => intro tile cur bn es acc _ _; left; rfl
  | succ f ih =>
    intro tile cur bn es acc htm hsum
    rw [RecoverShortcutLoop]
    cases hE : cur.endnode == sc.endnode with
    | true =>
      simp only [hE, cond_true]
      cases hlt : decide (acc < sc.length) with
      | true => simp only [hlt, cond_true]; left; trivial
      | false =>
        simp only [hlt, cond_false]
        right; left
        exact ⟨by trivial, Nat.le_of_not_lt (of_decide_eq_false hlt)⟩
    | false =>
      simp only [hE, cond_false]
      rcases hEN : GetEndNode r cur tile with _ | tni
      · simp only [hEN]; left; trivial
      rcases tni with ⟨t2, ni⟩
      simp only [hEN]
      rcases hF : (t2.GetDirectedEdges ni).find? (fun p =>
          recoverMatch sc bn p.2) with _ | ie
      · simp only [hF]; left; trivial
      rcases ie with ⟨idx, e⟩
      simp only [hF]
      have ht2 : t2 ∈ r.tiles := GetEndNode_mem hEN htm
      have hel : edgeAt r (t2.graphid.set_id idx) = some e :=
        edgeAt_set_id hk ht2 (find?_GetDirectedEdges hF)
      cases hov : decide (sc.length < acc + e.length) with
      | true => simp only [hov, cond_true]; left; trivial
      | false =>
        simp only [hov, cond_false]
        have hsum2 : sumEdgeLengths r (es ++ [t2.graphid.set_id idx]) =
            acc + e.length := by
          unfold sumEdgeLengths at hsum ⊢
          rw [List.map_append, List.sum_append, hsum]
          simp only [List.map_cons, List.map_nil, List.sum_cons, List.sum_nil]
          unfold edgeLenAt
          rw [hel]
          simp
        rcases ih t2 e (t2.graphid.set_id ni) (es ++ [t2.graphid.set_id idx])
            (acc + e.length) ht2 hsum2 with h1 | h2 | h3
        · left; exact h1
        · right; right
          refine ⟨es ++ [t2.graphid.set_id idx], h2.1, ?_⟩
          have hle : acc + e.length ≤ sc.length :=
            Nat.le_of_not_lt (of_decide_eq_false hov)
          have hge := h2.2
          rw [hsum2]
          omega
        · right; right; exact h3

/-- Fixture for C2: a two-node tile with a shortcut S (recorded length 5)
from node A to node B whose single superseded edge E has length 7 and
already reaches B. -/
def exEdgeC2S : DirectedEdge :=
  { baseEdge with endnode := ⟨0, 0, 1⟩, shortcut := 1, length := 5 }

def exEdgeC2E : DirectedEdge :=
  { baseEdge with endnode := ⟨0, 0, 1⟩, superseded := 1, opp_index := 1, length := 7 }

def exTileC2 : GraphTile :=
  { graphid := ⟨0, 0, 0⟩
    nodes := [mkNode 0 2, mkNode 2 2]
    directededges :=
      [exEdgeC2S, exEdgeC2E,
       { baseEdge with endnode := ⟨0, 0, 0⟩, shortcut := 2, length := 5 },
       { baseEdge with endnode := ⟨0, 0, 0⟩, superseded := 2, opp_index := 1, length := 7 }]
    transitions := []
    base_ll := ⟨0, 0, true⟩
    edgeinfos := [] }

def exReaderC2 : GraphReader := ⟨[exTileC2]⟩

/-- C2 counterexample: RecoverShortcut succeeds (returns the recovered edge,
not the singleton shortcut id) although the final accumulated length (7)
does not equal the shortcut's recorded length (5): the overrun check is
skipped for the first edge when it already reaches the shortcut's end node,
so the claim's "exactly when" and its success guarantee both fail. -/
theorem C2_counterexample :
    RecoverShortcut exReaderC2 5 ⟨0, 0, 0⟩ = [⟨0, 0, 1⟩] ∧
    [GraphId.mk 0 0 1] ≠ [GraphId.mk 0 0 0] ∧
    sumEdgeLengths exReaderC2 [⟨0, 0, 1⟩] = 7 ∧
    edgeLenAt exReaderC2 ⟨0, 0, 0⟩ = 5 := by decide

/-- C2 amended: on a self-keyed store, RecoverShortcut either returns the
singleton shortcut id (graceful failure: unresolvable begin node or tile,
no superseded or fingerprint-matching edge, a length overrun while
continuing, or a final accumulated length below the recorded one), or it
succeeds with edge ids whose accumulated length equals the shortcut's
recorded length — except that a recovery consisting of exactly one edge
may exceed the recorded length, because the overrun check is skipped for
the first edge when it already reaches the shortcut's end node. -/
theorem C2_amended (r : GraphReader) (fuel : Nat) (sid : GraphId)
    (tile : GraphTile) (sc : DirectedEdge)
    (hk : r.selfKeyed = true)
    (ht : GetGraphTile r sid = some tile)
    (he : tile.directededges[sid.id]? = some sc) :
    RecoverShortcut r fuel sid = [sid] ∨
    sumEdgeLengths r (RecoverShortcut r fuel sid) = sc.length ∨
    ((RecoverShortcut r fuel sid).length = 1 ∧
      sc.length ≤ sumEdgeLengths r (RecoverShortcut r fuel sid)) := by
  unfold RecoverShortcut
  simp only [ht, he]
  cases hsc : !sc.is_shortcut with
  | true => simp only [hsc, cond_true]; left; trivial
  | false =>
    simp only [hsc, cond_false]
    cases hbv : !(edge_startnode r sid).Is_Valid with
    | true => simp only [hbv, cond_true]; left; trivial
    | false =>
      simp only [hbv, cond_false]
      rcases hF : (tile.GetDirectedEdges (edge_startnode r sid).id).find?
          (fun p => (sc.shortcut &&& p.2.superseded) != 0) with _ | ie
      · simp only [hF]; left; trivial
      rcases ie with ⟨idx, de⟩
      simp only [hF]
      have htm : tile ∈ r.tiles := GetGraphTile_mem ht
      have hel : edgeAt r (tile.graphid.set_id idx) = some de :=
        edgeAt_set_id hk htm (find?_GetDirectedEdges hF)
      have hsum1 : sumEdgeLengths r [tile.graphid.set_id idx] = de.length := by
        unfold sumEdgeLengths edgeLenAt
        rw [List.map_cons, List.map_nil]
        rw [hel]
        simp
      rcases recoverLoop_spec r hk sc sid fuel tile de (edge_startnode r sid)
          [tile.graphid.set_id idx] de.length htm hsum1 with h1 | h2 | h3
      · left; exact h1
      · right; right
        rw [h2.1]
        refine ⟨by trivial, ?_⟩
        rw [hsum1]
        exact h2.2
      · obtain ⟨out, ho, hs⟩ := h3
        right; left
        rw [ho]
        exact hs

/-- Witness for C2 amended at the concrete fixture. -/
theorem C2_amended_witness :
    exReaderC2.selfKeyed = true ∧
    (RecoverShortcut exReaderC2 5 ⟨0, 0, 0⟩ = [⟨0, 0, 0⟩] ∨
     sumEdgeLengths exReaderC2 (RecoverShortcut exReaderC2 5 ⟨0, 0, 0⟩) =
       exEdgeC2S.length ∨
     ((RecoverShortcut exReaderC2 5 ⟨0, 0, 0⟩).length = 1 ∧
       exEdgeC2S.length ≤
         sumEdgeLengths exReaderC2 (RecoverShortcut exReaderC2 5 ⟨0, 0, 0⟩))) :=
  ⟨by decide,
   C2_amended exReaderC2 5 ⟨0, 0, 0⟩ exTileC2 exEdgeC2S
     (by decide) (by decide) (by decide)⟩

/-- Erase the speed attribute of an edge (all other attributes kept). -/
def DirectedEdge.clearSpeed (de : DirectedEdge) : DirectedEdge :=
  { de with speed := 0 }

/-- Erase every edge speed of a tile. -/
def GraphTile.clearSpeed (t : GraphTile) : GraphTile :=
  { t with directededges := t.directededges.map DirectedEdge.clearSpeed }

/-- Erase every edge speed of a store: two stores are identical except for
speed values exactly when their clearSpeed images agree. -/
def GraphReader.clearSpeed (r : GraphReader) : GraphReader :=
  ⟨r.tiles.map GraphTile.clearSpeed⟩

lemma GetGraphTile_clearSpeed (r : GraphReader) (id : GraphId) :
    GetGraphTile r.clearSpeed id = (GetGraphTile r id).map GraphTile.clearSpeed := by
  unfold GetGraphTile GraphReader.clearSpeed
  rw [List.find?_map]
  rfl

lemma edges_get_clearSpeed (t : GraphTile) (i : Nat) :
    (GraphTile.clearSpeed t).directededges[i]? =
      (t.directededges[i]?).map DirectedEdge.clearSpeed := by
  simp [GraphTile.clearSpeed]

lemma nodes_clearSpeed (t : GraphTile) :
    (GraphTile.clearSpeed t).nodes = t.nodes := rfl

lemma graphid_clearSpeed (t : GraphTile) :
    (GraphTile.clearSpeed t).graphid = t.graphid := rfl

lemma IsTransitLine_clearSpeed (de : DirectedEdge) :
    (DirectedEdge.clearSpeed de).IsTransitLine = de.IsTransitLine := rfl

lemma is_shortcut_clearSpeed (de : DirectedEdge) :
    (DirectedEdge.clearSpeed de).is_shortcut = de.is_shortcut := rfl

lemma endnode_clearSpeed (de : DirectedEdge) :
    (DirectedEdge.clearSpeed de).endnode = de.endnode := rfl

lemma GetOpposingEdgeId_clearSpeed (r : GraphReader) (id : GraphId) :
    GetOpposingEdgeId r.clearSpeed id = GetOpposingEdgeId r id := by
  unfold GetOpposingEdgeId
  rw [GetGraphTile_clearSpeed]
  rcases h1 : GetGraphTile r id with _ | t
  · rfl
  simp only [Option.map_some']
  rw [edges_get_clearSpeed]
  rcases h2 : t.directededges[id.id]? with _ | de
  · rfl
  simp only [Option.map_some', IsTransitLine_clearSpeed, endnode_clearSpeed]
  cases h3 : de.IsTransitLine with
  | true => rfl
  | false =>
    simp only [cond_false]
    rw [GetGraphTile_clearSpeed]
    rcases h4 : GetGraphTile r de.endnode with _ | t2
    · rfl
    simp only [Option.map_some', nodes_clearSpeed]
    rfl

lemma edgeAt_clearSpeed (r : GraphReader) (eid : GraphId) :
    edgeAt r.clearSpeed eid = (edgeAt r eid).map DirectedEdge.clearSpeed := by
  unfold edgeAt
  rw [GetGraphTile_clearSpeed]
  rcases h1 : GetGraphTile r eid with _ | t
  · rfl
  simp only [Option.map_some']
  exact edges_get_clearSpeed t eid.id

lemma edge_endnode_clearSpeed (r : GraphReader) (eid : GraphId) :
    edge_endnode r.clearSpeed eid = edge_endnode r eid := by
  unfold edge_endnode
  rw [edgeAt_clearSpeed]
  rcases h : edgeAt r eid with _ | de
  · rfl
  · rfl

lemma edge_startnode_clearSpeed (r : GraphReader) (eid : GraphId) :
    edge_startnode r.clearSpeed eid = edge_startnode r eid := by
  unfold edge_startnode
  simp only [GetOpposingEdgeId_clearSpeed, edge_endnode_clearSpeed]

lemma GetEndNode_clearSpeed (r : GraphReader) (e : DirectedEdge) (tile : GraphTile) :
    GetEndNode r.clearSpeed (DirectedEdge.clearSpeed e) (GraphTile.clearSpeed tile) =
      (GetEndNode r e tile).map (fun p => (GraphTile.clearSpeed p.1, p.2)) := by
  unfold GetEndNode
  have hl : (DirectedEdge.clearSpeed e).leaves_tile = e.leaves_tile := rfl
  rw [hl, endnode_clearSpeed]
  cases h1 : e.leaves_tile with
  | false =>
    simp only [cond_false, nodes_clearSpeed]
    cases h2 : decide (e.endnode.id < tile.nodes.length) with
    | false => simp only [h2, cond_false]; rfl
    | true => simp only [h2, cond_true]; rfl
  | true =>
    simp only [cond_true]
    rw [GetGraphTile_clearSpeed]
    rcases h2 : GetGraphTile r e.endnode with _ | t2
    · rfl
    simp only [Option.map_some', nodes_clearSpeed]
    cases h3 : decide (e.endnode.id < t2.nodes.length) with
    | false => simp only [h3, cond_false]; rfl
    | true => simp only [h3, cond_true]; rfl

lemma GetDirectedEdgesOf_clearSpeed (t : GraphTile) (node : NodeInfo) :
    (GraphTile.clearSpeed t).GetDirectedEdgesOf node =
      (t.GetDirectedEdgesOf node).map (fun p => (p.1, DirectedEdge.clearSpeed p.2)) := by
  unfold GraphTile.GetDirectedEdgesOf
  rw [List.map_filterMap]
  apply List.filterMap_congr
  intro k _
  rw [edges_get_clearSpeed]
  rcases h : t.directededges[node.edge_index + k]? with _ | de
  · rfl
  · rfl

lemma GetDirectedEdges_clearSpeed (t : GraphTile) (ni : Nat) :
    (GraphTile.clearSpeed t).GetDirectedEdges ni =
      (t.GetDirectedEdges ni).map (fun p => (p.1, DirectedEdge.clearSpeed p.2)) := by
  unfold GraphTile.GetDirectedEdges
  rw [nodes_clearSpeed]
  rcases h : t.nodes[ni]? with _ | node
  · rfl
  · exact GetDirectedEdgesOf_clearSpeed t node

lemma recoverMatch_clearSpeed (sc : DirectedEdge) (bn : GraphId) (e : DirectedEdge) :
    recoverMatch (DirectedEdge.clearSpeed sc) bn (DirectedEdge.clearSpeed e) =
      recoverMatch sc bn e := rfl

lemma RecoverShortcutLoop_clearSpeed (r : GraphReader) (sc : DirectedEdge)
    (sid : GraphId) :
    ∀ (fuel : Nat) (tile : GraphTile) (cur : DirectedEdge) (bn : GraphId)
      (es : List GraphId) (acc : Nat),
      RecoverShortcutLoop r.clearSpeed (DirectedEdge.clearSpeed sc) sid fuel
        (GraphTile.clearSpeed tile) (DirectedEdge.clearSpeed cur) bn es acc =
      RecoverShortcutLoop r sc sid fuel tile cur bn es acc := by
  intro fuel
  induction fuel with
  | zero => intro tile cur bn es acc; rfl
  | succ f ih =>
    intro tile cur bn es acc
    rw [RecoverShortcutLoop, RecoverShortcutLoop]
    have hE : ((DirectedEdge.clearSpeed cur).endnode ==
        (DirectedEdge.clearSpeed sc).endnode) = (cur.endnode == sc.endnode) := rfl
    rw [hE]
    cases h1 : cur.endnode == sc.endnode with
    | true =>
      have hL : (DirectedEdge.clearSpeed sc).length = sc.length := rfl
      simp only [cond_true, hL]
    | false =>
      simp only [cond_false]
      rw [GetEndNode_clearSpeed]
      rcases h2 : GetEndNode r cur tile with _ | tni
      · rfl
      rcases tni with ⟨t2, ni⟩
      simp only [Option.map_some']
      rw [GetDirectedEdges_clearSpeed, List.find?_map]
      have hP : ((fun p => recoverMatch (DirectedEdge.clearSpeed sc) bn p.2) ∘
          (fun p : Nat × DirectedEdge => (p.1, DirectedEdge.clearSpeed p.2))) =
          (fun p : Nat × DirectedEdge => recoverMatch sc bn p.2) := by
        funext p
        exact recoverMatch_clearSpeed sc bn p.2
      rw [hP]
      rcases h3 : (t2.GetDirectedEdges ni).find? (fun p =>
          recoverMatch sc bn p.2) with _ | ie
      · simp only [h3]
        rfl
      rcases ie with ⟨idx, e⟩
      simp only [h3, Option.map_some', graphid_clearSpeed]
      have hl2 : (DirectedEdge.clearSpeed e).length = e.length := rfl
      have hl3 : (DirectedEdge.clearSpeed sc).length = sc.length := rfl
      rw [hl2, hl3]
      cases h4 : decide (sc.length < acc + e.length) with
      | true => simp only [cond_true]
      | false =>
        simp only [cond_false]
        exact ih t2 e (t2.graphid.set_id ni) (es ++ [t2.graphid.set_id idx])
          (acc + e.length)

lemma RecoverShortcut_clearSpeed (r : GraphReader) (fuel : Nat) (sid : GraphId) :
    RecoverShortcut r.clearSpeed fuel sid = RecoverShortcut r fuel sid := by
  unfold RecoverShortcut
  rw [GetGraphTile_clearSpeed]
  rcases h1 : GetGraphTile r sid with _ | tile
  · rfl
  simp only [Option.map_some']
  rw [edges_get_clearSpeed]
  rcases h2 : tile.directededges[sid.id]? with _ | sc
  · rfl
  simp only [Option.map_some', is_shortcut_clearSpeed]
  cases h3 : !sc.is_shortcut with
  | true => rfl
  | false =>
    simp only [cond_false]
    rw [edge_startnode_clearSpeed]
    cases h4 : !(edge_startnode r sid).Is_Valid with
    | true => rfl
    | false =>
      simp only [cond_false]
      rw [GetDirectedEdges_clearSpeed, List.find?_map]
      have hP : ((fun p => ((DirectedEdge.clearSpeed sc).shortcut &&&
          p.2.superseded) != 0) ∘
          (fun p : Nat × DirectedEdge => (p.1, DirectedEdge.clearSpeed p.2))) =
          (fun p : Nat × DirectedEdge => (sc.shortcut &&& p.2.superseded) != 0) := by
        funext p
        rfl
      rw [hP]
      rcases h5 : (tile.GetDirectedEdges (edge_startnode r sid).id).find?
          (fun p => (sc.shortcut &&& p.2.superseded) != 0) with _ | ie
      · simp only [h5]
        rfl
      rcases ie with ⟨idx, de⟩
      simp only [h5, Option.map_some', graphid_clearSpeed]
      have hl : (DirectedEdge.clearSpeed de).length = de.length := rfl
      rw [hl]
      exact RecoverShortcutLoop_clearSpeed r sc sid fuel tile de
        (edge_startnode r sid) [tile.graphid.set_id idx] de.length

/-- C9: RecoverShortcut does not read edge speeds: two stores that are
identical except for speed values (equal clearSpeed images) give identical
results for every shortcut id and fuel. -/
theorem C9_speed_independent (r1 r2 : GraphReader) (fuel : Nat) (sid : GraphId)
    (h : r1.clearSpeed = r2.clearSpeed) :
    RecoverShortcut r1 fuel sid = RecoverShortcut r2 fuel sid := by
  rw [← RecoverShortcut_clearSpeed r1, h, RecoverShortcut_clearSpeed r2]

/-- Fixture: the C2 tile with one edge's speed changed. -/
def exTileC9 : GraphTile :=
  { exTileC2 with directededges :=
      [exEdgeC2S, { exEdgeC2E with speed := 99 },
       { baseEdge with endnode := ⟨0, 0, 0⟩, shortcut := 2, length := 5 },
       { baseEdge with endnode := ⟨0, 0, 0⟩, superseded := 2, opp_index := 1, length := 7 }] }

def exReaderC9 : GraphReader := ⟨[exTileC9]⟩

/-- Witness for C9: the concrete stores differ in a speed value and give
the same recovery. -/
theorem C9_speed_independent_witness :
    exReaderC2.clearSpeed = exReaderC9.clearSpeed ∧
    RecoverShortcut exReaderC2 5 ⟨0, 0, 0⟩ = RecoverShortcut exReaderC9 5 ⟨0, 0, 0⟩ :=
  ⟨by decide, C9_speed_independent exReaderC2 exReaderC9 5 ⟨0, 0, 0⟩ (by decide)⟩

lemma foldl_const {α β : Type} (f : β → α → β) (b : β) (l : List α)
    (h : ∀ a ∈ l, f b a = b) : l.foldl f b = b := by
  induction l with
  | nil => rfl
  | cons x xs ih =>
    rw [List.foldl_cons, h x (List.mem_cons_self x xs)]
    exact ih (fun a ha => h a (List.mem_cons_of_mem x ha))

/-- C10: when no node of any scanned tile lies inside the input box,
GetMinimumBoundingBox returns the default box built from invalid points —
the running box is only initialized once a first contained node is found
(and absence is a normal result, not a fault: the function is total). -/
theorem C10_minbb_empty (r : GraphReader) (ids : List GraphId) (bb : AABB2)
    (h : ∀ tid ∈ ids, ∀ tile ∈ (GetGraphTile r tid).toList,
      ∀ n ∈ tile.nodes, bb.Contains (n.latlng tile.base_ll) = false) :
    GetMinimumBoundingBox r ids bb = AABB2.mk PointLL.invalid PointLL.invalid := by
  unfold GetMinimumBoundingBox
  apply foldl_const
  intro tid htid
  rcases ht : GetGraphTile r tid with _ | tile
  · rfl
  · apply foldl_const
    intro i hi
    rcases hn : tile.nodes[i]? with _ | node
    · rfl
    · have hc : bb.Contains (node.latlng tile.base_ll) = false :=
        h tid htid tile (by simp [ht]) node (List.getElem?_mem hn)
      simp only [hc, cond_false]

/-- Fixture: a tile whose single node lies far outside the query box. -/
def exTileC10 : GraphTile :=
  { graphid := ⟨0, 0, 0⟩
    nodes := [⟨0, 0, 0, 0, 0, 10, 10⟩]
    directededges := []
    transitions := []
    base_ll := ⟨0, 0, true⟩
    edgeinfos := [] }

def exReaderC10 : GraphReader := ⟨[exTileC10]⟩

/-- Witness for C10 at a concrete empty query. -/
theorem C10_minbb_empty_witness :
    GetMinimumBoundingBox exReaderC10 [⟨0, 0, 0⟩]
      (AABB2.mk ⟨0, 0, true⟩ ⟨1, 1, true⟩) =
      AABB2.mk PointLL.invalid PointLL.invalid :=
  C10_minbb_empty exReaderC10 [⟨0, 0, 0⟩] (AABB2.mk ⟨0, 0, true⟩ ⟨1, 1, true⟩)
    (by with_unfolding_all decide)

/-- Modelled from the spec: the generic spatial grid over a planar bounding
region with a tile size and an N by N bin subdivision per tile (the Tiles
implementation is not among the sampled sources; test/tiles.cc fixes its
contract). -/
structure Tiles where
  minx : ℚ
  miny : ℚ
  maxx : ℚ
  maxy : ℚ
  tilesize : ℚ
  nsubdivisions : Nat
deriving DecidableEq, Repr

/-- Modelled from the spec: number of tile columns of the grid. -/
def Tiles.ncolumns (g : Tiles) : Nat := (((g.maxx - g.minx) / g.tilesize).ceil).toNat

/-- Modelled from the spec: number of tile rows of the grid. -/
def Tiles.nrows (g : Tiles) : Nat := (((g.maxy - g.miny) / g.tilesize).ceil).toNat

/-- Modelled from the spec: tile id from (column, row), row-major. -/
def Tiles.TileId (g : Tiles) (col row : Nat) : Nat := row * g.ncolumns + col

/-- Modelled from the spec: (row, column) of a tile id. -/
def Tiles.GetRowColumn (g : Tiles) (id : Nat) : Nat × Nat :=
  (id / g.ncolumns, id % g.ncolumns)

/-- C8: over the valid id and (row, col) spaces of a grid with at least one
column, TileId and GetRowColumn are mutual inverses. -/
theorem C8_rowcol_inverse (g : Tiles) (hc : 0 < g.ncolumns) :
    (∀ row col, row < g.nrows → col < g.ncolumns →
      g.GetRowColumn (g.TileId col row) = (row, col)) ∧
    (∀ id, id < g.nrows * g.ncolumns →
      g.TileId (g.GetRowColumn id).2 (g.GetRowColumn id).1 = id) := by
  constructor
  · intro row col _ hcol
    unfold Tiles.GetRowColumn Tiles.TileId
    have h1 : (row * g.ncolumns + col) / g.ncolumns = row := by
      rw [Nat.mul_comm row g.ncolumns, Nat.mul_add_div hc,
        Nat.div_eq_of_lt hcol, Nat.add_zero]
    have h2 : (row * g.ncolumns + col) % g.ncolumns = col := by
      rw [Nat.mul_comm row g.ncolumns, Nat.mul_add_mod]
      exact Nat.mod_eq_of_lt hcol
    rw [h1, h2]
  · intro id _
    unfold Tiles.GetRowColumn Tiles.TileId
    simp only
    rw [Nat.mul_comm]
    exact Nat.div_add_mod id g.ncolumns

/-- Fixture: the world grid at one-degree tiles with 5 bins per side. -/
def worldTiles : Tiles := ⟨-180, -90, 180, 90, 1, 5⟩

/-- Witness for C8 on the world grid. -/
theorem C8_rowcol_inverse_witness :
    0 < worldTiles.ncolumns ∧
    worldTiles.GetRowColumn (worldTiles.TileId 103 130) = (130, 103) ∧
    worldTiles.TileId (worldTiles.GetRowColumn 46873).2
      (worldTiles.GetRowColumn 46873).1 = 46873 := by
  have hc : 0 < worldTiles.ncolumns := by with_unfolding_all decide
  exact ⟨hc,
    (C8_rowcol_inverse worldTiles hc).1 130 103
      (by with_unfolding_all decide) (by with_unfolding_all decide),
    (C8_rowcol_inverse worldTiles hc).2 46873 (by with_unfolding_all decide)⟩

/-- Modelled from the spec: side length of a bin (subdivision). -/
def Tiles.subSize (g : Tiles) : ℚ := g.tilesize / (g.nsubdivisions : ℚ)

/-- Modelled from the spec: number of bin columns over the whole region. -/
def Tiles.nsubx (g : Tiles) : Nat := g.ncolumns * g.nsubdivisions

/-- Modelled from the spec: number of bin rows over the whole region. -/
def Tiles.nsuby (g : Tiles) : Nat := g.nrows * g.nsubdivisions

/-- Modelled from the spec: the (tile id, bin index) pair of the global bin
at column sx and row sy. -/
def Tiles.cellOf (g : Tiles) (sx sy : Nat) : Nat × Nat :=
  ((sy / g.nsubdivisions) * g.ncolumns + sx / g.nsubdivisions,
   (sy % g.nsubdivisions) * g.nsubdivisions + sx % g.nsubdivisions)

/-- All global bin coordinates of the grid, row-major. -/
def Tiles.allCellsXY (g : Tiles) : List (Nat × Nat) :=
  (List.range g.nsuby).flatMap (fun sy =>
    (List.range g.nsubx).map (fun sx => (sx, sy)))

/-- All (tile, bin) pairs of the grid. -/
def Tiles.allCells (g : Tiles) : List (Nat × Nat) :=
  g.allCellsXY.map (fun p => g.cellOf p.1 p.2)

/-- The closed rectangle of the global bin at (sx, sy). -/
structure CellBox where
  lox : ℚ
  loy : ℚ
  hix : ℚ
  hiy : ℚ
deriving DecidableEq, Repr

/-- Modelled from the spec: the rectangle of the bin at (sx, sy). -/
def Tiles.cellBoxXY (g : Tiles) (sx sy : Nat) : CellBox :=
  ⟨g.minx + (sx : ℚ) * g.subSize, g.miny + (sy : ℚ) * g.subSize,
   g.minx + ((sx : ℚ) + 1) * g.subSize, g.miny + ((sy : ℚ) + 1) * g.subSize⟩

/-- Parameter interval of a segment coordinate against one slab of a box
(none when a degenerate axis lies outside the slab). -/
def axisParam (p d lo hi : ℚ) : Option (ℚ × ℚ) :=
  bif d == 0 then
    (bif decide (lo ≤ p) && decide (p ≤ hi) then some (0, 1) else none)
  else some (min ((lo - p) / d) ((hi - p) / d),
             max ((lo - p) / d) ((hi - p) / d))

/-- Modelled from the spec: exact closed-box clipping test — the segment
from (x1,y1) to (x2,y2) meets the box iff the slab parameter intervals and
[0,1] intersect. -/
def segTouchesBox (x1 y1 x2 y2 : ℚ) (box : CellBox) : Bool :=
  match axisParam x1 (x2 - x1) box.lox box.hix,
        axisParam y1 (y2 - y1) box.loy box.hiy with
  | some (t0x, t1x), some (t0y, t1y) =>
      decide (max (max t0x t0y) 0 ≤ min (min t1x t1y) 1)
  | _, _ => false

/-- Modelled from the spec: the global bin containing a point, none when
the point is outside the region. -/
def Tiles.pointCellXY (g : Tiles) (px py : ℚ) : Option (Nat × Nat) :=
  let sx := ((px - g.minx) / g.subSize).floor
  let sy := ((py - g.miny) / g.subSize).floor
  bif decide (0 ≤ sx) && decide (sx < (g.nsubx : Int)) &&
      decide (0 ≤ sy) && decide (sy < (g.nsuby : Int)) then
    some (sx.toNat, sy.toNat)
  else none

/-- Modelled from the spec: a polyline touches a bin when one of its
consecutive segments meets the bin's rectangle; a degenerate single-point
input touches exactly its containing bin; the empty input touches none. -/
def Tiles.polyTouchesCellXY (g : Tiles) (pts : List (ℚ × ℚ)) (sx sy : Nat) : Bool :=
  match pts with
  | [] => false
  | [p] => g.pointCellXY p.1 p.2 == some (sx, sy)
  | _ => (pts.zip pts.tail).any fun ab =>
      segTouchesBox ab.1.1 ab.1.2 ab.2.1 ab.2.2 (g.cellBoxXY sx sy)

/-- Modelled from the spec: Intersect returns the deduplicated (tile, bin)
pairs whose bin the polyline geometrically passes through. -/
def Tiles.Intersect (g : Tiles) (pts : List (ℚ × ℚ)) : List (Nat × Nat) :=
  (g.allCellsXY.filter (fun p => g.polyTouchesCellXY pts p.1 p.2)).map
    (fun p => g.cellOf p.1 p.2)

/-- Fixture: the grid over [-5,-5,5,5] with tile size 5/2 and 5 bins per
side. -/
def tilesC7 : Tiles := ⟨-5, -5, 5, 5, 5 / 2, 5⟩

/-- C7: membership in Intersect is exactly geometric incidence — a cell is
returned iff it is a bin of the grid some segment of the polyline passes
through (no missed bin, no extra bin); and on the [-5,-5,5,5] grid with
tile size 2.5 and 5 bins per side, the single point (-1,-1) yields exactly
tile 5, bin 18. -/
theorem C7_intersect :
    (∀ (g : Tiles) (pts : List (ℚ × ℚ)) (c : Nat × Nat), 2 ≤ pts.length →
      (c ∈ g.Intersect pts ↔ ∃ p ∈ g.allCellsXY, c = g.cellOf p.1 p.2 ∧
        ∃ ab ∈ pts.zip pts.tail,
          segTouchesBox ab.1.1 ab.1.2 ab.2.1 ab.2.2 (g.cellBoxXY p.1 p.2) = true)) ∧
    tilesC7.Intersect [(-1, -1)] = [(5, 18)] := by
  constructor
  · intro g pts c hlen
    obtain ⟨p1, p2, rest, rfl⟩ : ∃ a b l, pts = a :: b :: l := by
      rcases pts with _ | ⟨p1, _ | ⟨p2, rest⟩⟩
      · simp at hlen
      · simp at hlen
      · exact ⟨p1, p2, rest, rfl⟩
    unfold Tiles.Intersect
    rw [List.mem_map]
    constructor
    · rintro ⟨p, hp, hc⟩
      rw [List.mem_filter] at hp
      obtain ⟨hpl, hq⟩ := hp
      unfold Tiles.polyTouchesCellXY at hq
      rw [List.any_eq_true] at hq
      obtain ⟨ab, hab, habt⟩ := hq
      exact ⟨p, hpl, hc.symm, ab, hab, habt⟩
    · rintro ⟨p, hpl, hc, ab, hab, habt⟩
      refine ⟨p, ?_, hc.symm⟩
      rw [List.mem_filter]
      refine ⟨hpl, ?_⟩
      unfold Tiles.polyTouchesCellXY
      rw [List.any_eq_true]
      exact ⟨ab, hab, habt⟩
  · with_unfolding_all decide

/-- Modelled from the spec: global bin coordinates of a (tile, bin) pair. -/
def Tiles.binSxSy (g : Tiles) (c : Nat × Nat) : Nat × Nat :=
  ((c.1 % g.ncolumns) * g.nsubdivisions + c.2 % g.nsubdivisions,
   (c.1 / g.ncolumns) * g.nsubdivisions + c.2 / g.nsubdivisions)

def clampQ (x lo hi : ℚ) : ℚ := max lo (min x hi)

/-- Modelled from the spec: squared distance from the query point to the
nearest point of the bin's rectangle. -/
def Tiles.binDistSq (g : Tiles) (px py : ℚ) (c : Nat × Nat) : ℚ :=
  let s := g.binSxSy c
  let box := g.cellBoxXY s.1 s.2
  let cx := clampQ px box.lox box.hix
  let cy := clampQ py box.loy box.hiy
  (px - cx) * (px - cx) + (py - cy) * (py - cy)

/-- The distance comparison used by ClosestFirst. -/
def Tiles.cfRel (g : Tiles) (px py : ℚ) (a b : Nat × Nat) : Prop :=
  g.binDistSq px py a ≤ g.binDistSq px py b

instance (g : Tiles) (px py : ℚ) : DecidableRel (g.cfRel px py) :=
  fun a b => inferInstanceAs (Decidable (g.binDistSq px py a ≤ g.binDistSq px py b))

instance (g : Tiles) (px py : ℚ) : IsTotal (Nat × Nat) (g.cfRel px py) :=
  ⟨fun a b => le_total (g.binDistSq px py a) (g.binDistSq px py b)⟩

instance (g : Tiles) (px py : ℚ) : IsTrans (Nat × Nat) (g.cfRel px py) :=
  ⟨fun _ _ _ hab hbc => le_trans hab hbc⟩

/-- The state of a ClosestFirst enumeration: the bins not yet produced. -/
structure ClosestFirstState where
  remaining : List (Nat × Nat)
deriving DecidableEq, Repr

/-- Modelled from the spec: ClosestFirst produces the grid's (tile, bin)
pairs in non-decreasing distance from the query point distinctly followed
by exhaustion; modelled as the distance-sorted list consumed statefully. -/
def Tiles.ClosestFirst (g : Tiles) (px py : ℚ) : ClosestFirstState :=
  ⟨g.allCells.insertionSort (g.cfRel px py)⟩

/-- One invocation: the next (tile, bin) pair and the successor state, or
none — the distinct exhaustion signal (the C++ functor throws). -/
def ClosestFirstState.next (s : ClosestFirstState) :
    Option ((Nat × Nat) × ClosestFirstState) :=
  match s.remaining with
  | [] => none
  | c :: rest => some (c, ⟨rest⟩)

/-- Repeated invocation: the pairs produced by n calls and the final state. -/
def ClosestFirstState.emit : ClosestFirstState → Nat →
    List (Nat × Nat) × ClosestFirstState
  | s, 0 => ([], s)
  | s, n + 1 => match s.next with
    | none => ([], s)
    | some (c, s2) =>
      let pr := s2.emit n
      (c :: pr.1, pr.2)

lemma emit_all : ∀ (l : List (Nat × Nat)),
    ClosestFirstState.emit ⟨l⟩ l.length = (l, ⟨[]⟩) := by
  intro l
  induction l with
  | nil => rfl
  | cons c rest ih =>
    show ClosestFirstState.emit ⟨c :: rest⟩ (rest.length + 1) = _
    simp only [ClosestFirstState.emit, ClosestFirstState.next, ih]

lemma mem_allCellsXY {g : Tiles} {p : Nat × Nat} :
    p ∈ g.allCellsXY ↔ p.1 < g.nsubx ∧ p.2 < g.nsuby := by
  unfold Tiles.allCellsXY
  rw [List.mem_flatMap]
  constructor
  · rintro ⟨sy, hsy, hp⟩
    rw [List.mem_map] at hp
    obtain ⟨sx, hsx, rfl⟩ := hp
    exact ⟨List.mem_range.mp hsx, List.mem_range.mp hsy⟩
  · rintro ⟨h1, h2⟩
    refine ⟨p.2, List.mem_range.mpr h2, ?_⟩
    rw [List.mem_map]
    exact ⟨p.1, List.mem_range.mpr h1, rfl⟩

lemma allCellsXY_nodup (g : Tiles) : g.allCellsXY.Nodup := by
  unfold Tiles.allCellsXY
  rw [List.nodup_flatMap]
  constructor
  · intro sy _
    exact (List.nodup_range _).map fun a b h => (Prod.mk.injEq .. |>.mp h).1
  · apply List.Pairwise.imp ?_ (List.pairwise_lt_range _)
    intro a b hab
    intro x hx1 hx2
    rw [List.mem_map] at hx1 hx2
    obtain ⟨sx1, _, hx1e⟩ := hx1
    obtain ⟨sx2, _, hx2e⟩ := hx2
    rw [← hx1e] at hx2e
    have hba : b = a := congrArg Prod.snd hx2e
    omega

lemma cellOf_inj (g : Tiles) (hn : 0 < g.nsubdivisions) (hc : 0 < g.ncolumns)
    {sx sy sx2 sy2 : Nat} (h1 : sx < g.nsubx) (h2 : sx2 < g.nsubx)
    (he : g.cellOf sx sy = g.cellOf sx2 sy2) : sx = sx2 ∧ sy = sy2 := by
  unfold Tiles.cellOf at he
  have hT := (Prod.mk.injEq .. |>.mp he).1
  have hB := (Prod.mk.injEq .. |>.mp he).2
  set n := g.nsubdivisions with hndef
  have hbdiv : ∀ a b : Nat, (a % n * n + b % n) / n = a % n := by
    intro a b
    rw [Nat.mul_comm (a % n) n, Nat.mul_add_div hn,
      Nat.div_eq_of_lt (Nat.mod_lt b hn), Nat.add_zero]
  have hbmod : ∀ a b : Nat, (a % n * n + b % n) % n = b % n := by
    intro a b
    rw [Nat.mul_comm (a % n) n, Nat.mul_add_mod]
    exact Nat.mod_eq_of_lt (Nat.mod_lt b hn)
  have hsymod : sy % n = sy2 % n := by
    have e1 := congrArg (fun z => z / n) hB
    simpa [hbdiv sy sx, hbdiv sy2 sx2] using e1
  have hsxmod : sx % n = sx2 % n := by
    have e1 := congrArg (fun z => z % n) hB
    simpa [hbmod sy sx, hbmod sy2 sx2] using e1
  have hdx : sx / n < g.ncolumns := by
    have h1b : sx < g.nsubdivisions * g.ncolumns := by
      have h1c := h1
      unfold Tiles.nsubx at h1c
      rw [Nat.mul_comm] at h1c
      exact h1c
    exact Nat.div_lt_of_lt_mul h1b
  have hdx2 : sx2 / n < g.ncolumns := by
    have h2b : sx2 < g.nsubdivisions * g.ncolumns := by
      have h2c := h2
      unfold Tiles.nsubx at h2c
      rw [Nat.mul_comm] at h2c
      exact h2c
    exact Nat.div_lt_of_lt_mul h2b
  have hsydiv : sy / n = sy2 / n := by
    have e1 := congrArg (fun z => z / g.ncolumns) hT
    simpa [Nat.mul_comm _ g.ncolumns, Nat.mul_add_div hc,
      Nat.div_eq_of_lt hdx, Nat.div_eq_of_lt hdx2] using e1
  have hsxdiv : sx / n = sx2 / n := by
    have e1 := congrArg (fun z => z % g.ncolumns) hT
    simp only at e1
    rw [Nat.mul_comm (sy / n) g.ncolumns, Nat.mul_comm (sy2 / n) g.ncolumns,
      Nat.mul_add_mod, Nat.mul_add_mod, Nat.mod_eq_of_lt hdx,
      Nat.mod_eq_of_lt hdx2] at e1
    exact e1
  constructor
  · rw [← Nat.div_add_mod sx n, ← Nat.div_add_mod sx2 n, hsxdiv, hsxmod]
  · rw [← Nat.div_add_mod sy n, ← Nat.div_add_mod sy2 n, hsydiv, hsymod]

lemma allCells_nodup (g : Tiles) (hn : 0 < g.nsubdivisions)
    (hc : 0 < g.ncolumns) : g.allCells.Nodup := by
  unfold Tiles.allCells
  apply List.Nodup.map_on ?_ (allCellsXY_nodup g)
  intro x hx y hy hf
  have hx1 := (mem_allCellsXY.mp hx).1
  have hy1 := (mem_allCellsXY.mp hy).1
  have := cellOf_inj g hn hc hx1 hy1 hf
  exact Prod.ext this.1 this.2

/-- C6: ClosestFirst yields every (tile, bin) pair of the grid exactly once
(a permutation of the duplicate-free cell list), in non-decreasing order of
the squared distance from the query point to the nearest point of each
bin's rectangle, and after the last pair each further invocation returns
the distinct exhaustion signal none rather than repeating a value. -/
theorem C6_closest_first (g : Tiles) (px py : ℚ)
    (hn : 0 < g.nsubdivisions) (hc : 0 < g.ncolumns) :
    (g.ClosestFirst px py).remaining.Perm g.allCells ∧
    g.allCells.Nodup ∧
    (g.ClosestFirst px py).remaining.Sorted (g.cfRel px py) ∧
    (g.ClosestFirst px py).emit (g.ClosestFirst px py).remaining.length =
      ((g.ClosestFirst px py).remaining, ⟨[]⟩) ∧
    ClosestFirstState.next ⟨[]⟩ = none := by
  refine ⟨?_, allCells_nodup g hn hc, ?_, ?_, rfl⟩
  · exact List.perm_insertionSort (g.cfRel px py) g.allCells
  · exact List.sorted_insertionSort (g.cfRel px py) g.allCells
  · exact emit_all _

/-- Fixture: a 2 by 2 grid with 2 bins per side. -/
def tilesC6 : Tiles := ⟨0, 0, 2, 2, 1, 2⟩

/-- Witness for C6 on the concrete grid. -/
theorem C6_closest_first_witness :
    0 < tilesC6.nsubdivisions ∧ 0 < tilesC6.ncolumns ∧
    ((tilesC6.ClosestFirst 0 0).remaining.Perm tilesC6.allCells ∧
     tilesC6.allCells.Nodup ∧
     (tilesC6.ClosestFirst 0 0).remaining.Sorted (tilesC6.cfRel 0 0) ∧
     (tilesC6.ClosestFirst 0 0).emit (tilesC6.ClosestFirst 0 0).remaining.length =
       ((tilesC6.ClosestFirst 0 0).remaining, ⟨[]⟩) ∧
     ClosestFirstState.next ⟨[]⟩ = none) := by
  have h1 : 0 < tilesC6.nsubdivisions := by decide
  have h2 : 0 < tilesC6.ncolumns := by with_unfolding_all decide
  exact ⟨h1, h2, C6_closest_first tilesC6 0 0 h1 h2⟩

/-- Node ids of the synthetic chain (level 0, tile 0). -/
def chainGid (i : Nat) : GraphId := ⟨0, 0, i⟩

/-- Edge array of the synthetic chain of N attribute-identical base edges
of length L contracted under a shortcut: index 0 is the forward shortcut S
(node 0 to node N, mask 1, length N*L), index 2N+1 the reverse shortcut,
odd index 2i+1 the forward base edge from node i to node i+1, even index
2i+2 its opposing edge; only the first edge of each direction carries the
superseded mask of its shortcut. -/
def chainEdge (N L : Nat) (j : Nat) : DirectedEdge :=
  if j = 0 then
    { baseEdge with
        endnode := chainGid N, opp_index := 1, shortcut := 1, length := N * L }
  else if j = 2 * N + 1 then
    { baseEdge with
        endnode := chainGid 0, opp_index := 0, shortcut := 2, length := N * L }
  else if j % 2 = 1 then
    { baseEdge with
        endnode := chainGid ((j - 1) / 2 + 1), opp_index := 0,
        superseded := if j = 1 then 1 else 0, length := L }
  else
    { baseEdge with
        endnode := chainGid (j / 2 - 1), opp_index := 1,
        superseded := if j = 2 * N then 2 else 0, length := L }

/-- Nodes of the synthetic chain: node k owns edges 2k and 2k+1. -/
def chainNode (k : Nat) : NodeInfo := ⟨2 * k, 2, 0, 0, 0, 0, 0⟩

def chainTile (N L : Nat) : GraphTile :=
  { graphid := ⟨0, 0, 0⟩
    nodes := (List.range (N + 1)).map chainNode
    directededges := (List.range (2 * N + 2)).map (chainEdge N L)
    transitions := []
    base_ll := ⟨0, 0, true⟩
    edgeinfos := [] }

def chainReader (N L : Nat) : GraphReader := ⟨[chainTile N L]⟩

lemma chainEdge_S (N L : Nat) : chainEdge N L 0 =
    { baseEdge with
        endnode := chainGid N, opp_index := 1, shortcut := 1, length := N * L } := by
  unfold chainEdge
  rw [if_pos rfl]

lemma chainEdge_fwd (N L i : Nat) (h : i < N) : chainEdge N L (2 * i + 1) =
    { baseEdge with
        endnode := chainGid (i + 1), opp_index := 0,
        superseded := if i = 0 then 1 else 0, length := L } := by
  unfold chainEdge
  rw [if_neg (by omega), if_neg (by omega), if_pos (by omega)]
  have e1 : (2 * i + 1 - 1) / 2 + 1 = i + 1 := by omega
  rw [e1]
  by_cases hi : i = 0
  · subst hi
    rw [if_pos (by omega), if_pos rfl]
  · rw [if_neg (by omega), if_neg hi]

lemma chainEdge_bwd (N L i : Nat) (h : i < N) : chainEdge N L (2 * i + 2) =
    { baseEdge with
        endnode := chainGid i, opp_index := 1,
        superseded := if i = N - 1 then 2 else 0, length := L } := by
  unfold chainEdge
  rw [if_neg (by omega), if_neg (by omega), if_neg (by omega)]
  have e1 : (2 * i + 2) / 2 - 1 = i := by omega
  rw [e1]
  by_cases hi : i = N - 1
  · rw [if_pos (by omega), if_pos hi]
  · rw [if_neg (by omega), if_neg hi]

lemma chainTile_edge (N L j : Nat) (h : j < 2 * N + 2) :
    (chainTile N L).directededges[j]? = some (chainEdge N L j) := by
  unfold chainTile
  simp [List.getElem?_map, List.getElem?_range, h]

lemma chainTile_node (N L k : Nat) (h : k < N + 1) :
    (chainTile N L).nodes[k]? = some (chainNode k) := by
  unfold chainTile
  simp [List.getElem?_map, List.getElem?_range, h]

lemma chain_GetGraphTile (N L i : Nat) :
    GetGraphTile (chainReader N L) ⟨0, 0, i⟩ = some (chainTile N L) := rfl

@[simp] lemma chainGid_level (i : Nat) : (chainGid i).level = 0 := rfl

@[simp] lemma chainGid_tileid (i : Nat) : (chainGid i).tileid = 0 := rfl

@[simp] lemma chainGid_id (i : Nat) : (chainGid i).id = i := rfl

@[simp] lemma chainGid_TileBase (i : Nat) :
    (chainGid i).Tile_Base = GraphId.mk 0 0 0 := rfl

@[simp] lemma chainNode_ei (k : Nat) : (chainNode k).edge_index = 2 * k := rfl

@[simp] lemma chainNode_ec (k : Nat) : (chainNode k).edge_count = 2 := rfl

@[simp] lemma baseEdge_leaves_tile : baseEdge.leaves_tile = false := rfl

@[simp] lemma baseEdge_shortcut : baseEdge.shortcut = 0 := rfl

@[simp] lemma baseEdge_use : baseEdge.use = Use.kRoad := rfl

@[simp] lemma baseEdge_forwardaccess : baseEdge.forwardaccess = 1 := rfl

@[simp] lemma baseEdge_sign : baseEdge.sign = false := rfl

@[simp] lemma baseEdge_classification : baseEdge.classification = 0 := rfl

@[simp] lemma baseEdge_roundabout : baseEdge.roundabout = false := rfl

@[simp] lemma baseEdge_link : baseEdge.link = false := rfl

@[simp] lemma baseEdge_toll : baseEdge.toll = false := rfl

@[simp] lemma baseEdge_destonly : baseEdge.destonly = false := rfl

@[simp] lemma baseEdge_unpaved : baseEdge.unpaved = false := rfl

@[simp] lemma baseEdge_surface : baseEdge.surface = 0 := rfl

lemma chain_step_found (N L : Nat) (h : 0 < N) :
    GetShortcutStep (chainReader N L) (chainTile N L) (chainEdge N L 2) =
      ShortcutStep.found ⟨0, 0, 0⟩ := by
  have hb : chainEdge N L 2 =
      { baseEdge with
          endnode := chainGid 0, opp_index := 1,
          superseded := if 0 = N - 1 then 2 else 0, length := L } := by
    have := chainEdge_bwd N L 0 h
    simpa using this
  unfold GetShortcutStep
  rw [hb]
  simp only [baseEdge_leaves_tile, cond_false, chainGid_TileBase, chainGid_level,
    chainGid_tileid, chainGid_id]
  simp only [chainTile_node N L 0 (by omega), chainNode_ei, chainNode_ec,
    Nat.mul_zero, Nat.zero_add]
  simp only [chainTile_edge N L 1 (by omega)]
  have hf : chainEdge N L 1 =
      { baseEdge with
          endnode := chainGid 1, opp_index := 0, superseded := 1, length := L } := by
    have := chainEdge_fwd N L 0 h
    simpa using this
  simp only [hf]
  simp

lemma chain_step_next (N L i : Nat) (h1 : 1 ≤ i) (h2 : i < N) :
    GetShortcutStep (chainReader N L) (chainTile N L) (chainEdge N L (2 * i + 2)) =
      ShortcutStep.next (chainTile N L) (chainEdge N L (2 * i)) := by
  have hback : chainEdge N L (2 * i) =
      { baseEdge with
          endnode := chainGid (i - 1), opp_index := 1,
          superseded := if i - 1 = N - 1 then 2 else 0, length := L } := by
    have h3 := chainEdge_bwd N L (i - 1) (by omega)
    rw [show 2 * (i - 1) + 2 = 2 * i by omega] at h3
    exact h3
  have hr2 : List.range 2 = [0, 1] := rfl
  have hne : ((2 * i : Nat) == 2 * i + 1) = false := beq_eq_false_iff_ne.mpr (by omega)
  have heq : ((2 * i + 1 : Nat) == 2 * i + 1) = true := beq_self_eq_true _
  unfold GetShortcutStep
  rw [chainEdge_bwd N L i h2]
  simp only [baseEdge_leaves_tile, cond_false, chainGid_TileBase, chainGid_level,
    chainGid_tileid, chainGid_id]
  simp only [chainTile_node N L i (by omega), chainNode_ei, chainNode_ec]
  simp only [chainTile_edge N L (2 * i + 1) (by omega), chainEdge_fwd N L i h2]
  rw [if_neg (by omega : ¬ i = 0)]
  simp only [bne_self_eq_false, cond_false]
  unfold continuingEdge GraphTile.GetDirectedEdgesOf
  simp only [chainNode_ei, chainNode_ec, hr2, List.filterMap_cons, List.filterMap_nil,
    Nat.add_zero]
  simp only [chainTile_edge N L (2 * i) (by omega),
    chainTile_edge N L (2 * i + 1) (by omega), chainEdge_fwd N L i h2,
    hback, Option.map_some']
  rw [if_neg (by omega : ¬ i = 0)]
  simp only [List.filter_cons, List.filter_nil, chainGid_id, hne, heq,
    DirectedEdge.is_shortcut, baseEdge_shortcut, baseEdge_use]
  simp [hback]

lemma chain_loop (N L : Nat) :
    ∀ i, i < N → ∀ fuel, i < fuel →
      GetShortcutLoop (chainReader N L) fuel (chainTile N L)
        (chainEdge N L (2 * i + 2)) = chainGid 0 := by
  intro i
  induction i with
  | zero =>
    intro hi fuel hf
    obtain ⟨f, rfl⟩ : ∃ f, fuel = f + 1 := ⟨fuel - 1, by omega⟩
    simp only [GetShortcutLoop, Nat.mul_zero, Nat.zero_add,
      chain_step_found N L (by omega)]
    rfl
  | succ k ih =>
    intro hi fuel hf
    obtain ⟨f, rfl⟩ : ∃ f, fuel = f + 1 := ⟨fuel - 1, by omega⟩
    have hs := chain_step_next N L (k + 1) (by omega) (by omega)
    simp only [GetShortcutLoop, hs]
    have h2 := ih (by omega) f (by omega)
    rw [show 2 * (k + 1) = 2 * k + 2 by omega]
    exact h2

lemma chain_opp (N L i : Nat) (h : i < N) :
    GetOpposingEdgeId (chainReader N L) (chainGid (2 * i + 1)) =
      chainGid (2 * i + 2) := by
  have hg : ∀ j : Nat, GetGraphTile (chainReader N L) (chainGid j) =
      some (chainTile N L) := fun j => rfl
  unfold GetOpposingEdgeId
  simp only [hg, chainGid_id, chainTile_edge N L (2 * i + 1) (by omega),
    chainEdge_fwd N L i h]
  have hTL : ({ baseEdge with
      endnode := chainGid (i + 1), opp_index := 0,
      superseded := if i = 0 then 1 else 0, length := L } :
      DirectedEdge).IsTransitLine = false := rfl
  simp only [hTL, cond_false]
  simp only [hg, chainGid_id, chainTile_node N L (i + 1) (by omega), chainNode_ei]
  simp only [chainGid_level, chainGid_tileid, Nat.add_zero]
  rw [show 2 * (i + 1) = 2 * i + 2 by omega]
  rfl

lemma chain_GetShortcut (N L i fuel : Nat) (hi : i < N) (hf : i < fuel) :
    GetShortcut (chainReader N L) fuel (chainGid (2 * i + 1)) = chainGid 0 := by
  have hg : ∀ j : Nat, GetGraphTile (chainReader N L) (chainGid j) =
      some (chainTile N L) := fun j => rfl
  have hOE : GetOpposingEdge (chainReader N L) (chainGid (2 * i + 1)) =
      some (chainEdge N L (2 * i + 2)) := by
    unfold GetOpposingEdge
    rw [chain_opp N L i hi]
    have hv : (chainGid (2 * i + 2)).Is_Valid = true := by
      simp [GraphId.Is_Valid, chainGid, GraphId.invalid]
    simp only [hv, cond_true]
    unfold edgeAt
    simp only [hg, chainGid_id, chainTile_edge N L (2 * i + 2) (by omega)]
  have hlev : decide (TileHierarchy.localLevel ≤ (chainGid (2 * i + 1)).level) =
      false := rfl
  unfold GetShortcut
  simp only [hlev, cond_false, hg, chainGid_id,
    chainTile_edge N L (2 * i + 1) (by omega), chainEdge_fwd N L i hi]
  have hsc : ({ baseEdge with
      endnode := chainGid (i + 1), opp_index := 0,
      superseded := if i = 0 then 1 else 0, length := L } :
      DirectedEdge).is_shortcut = false := rfl
  simp only [hsc, cond_false, hOE]
  exact chain_loop N L i hi fuel hf

lemma chainEdge_Srev (N L : Nat) : chainEdge N L (2 * N + 1) =
    { baseEdge with
        endnode := chainGid 0, opp_index := 0, shortcut := 2, length := N * L } := by
  unfold chainEdge
  rw [if_neg (by omega), if_pos rfl]

lemma chain_startnode (N L : Nat) :
    edge_startnode (chainReader N L) (chainGid 0) = chainGid 0 := by
  have hg : ∀ j : Nat, GetGraphTile (chainReader N L) (chainGid j) =
      some (chainTile N L) := fun j => rfl
  have hopp : GetOpposingEdgeId (chainReader N L) (chainGid 0) =
      chainGid (2 * N + 1) := by
    unfold GetOpposingEdgeId
    simp only [hg, chainGid_id, chainTile_edge N L 0 (by omega), chainEdge_S]
    have hTL : ({ baseEdge with
        endnode := chainGid N, opp_index := 1, shortcut := 1, length := N * L } :
        DirectedEdge).IsTransitLine = false := rfl
    simp only [hTL, cond_false]
    simp only [hg, chainGid_id, chainTile_node N L N (by omega), chainNode_ei]
    simp only [chainGid_level, chainGid_tileid]
    rfl
  unfold edge_startnode
  rw [hopp]
  have hv : (chainGid (2 * N + 1)).Is_Valid = true := by
    simp [GraphId.Is_Valid, chainGid, GraphId.invalid]
  simp only [hv, cond_true]
  unfold edge_endnode edgeAt
  simp only [hg, chainGid_id, chainTile_edge N L (2 * N + 1) (by omega),
    chainEdge_Srev]

lemma chain_recover_loop (N L : Nat) :
    ∀ fuel j, j < N → N - j ≤ fuel →
      RecoverShortcutLoop (chainReader N L) (chainEdge N L 0) (chainGid 0) fuel
        (chainTile N L) (chainEdge N L (2 * j + 1)) (chainGid j)
        ((List.range (j + 1)).map (fun k => chainGid (2 * k + 1))) ((j + 1) * L)
      = (List.range N).map (fun k => chainGid (2 * k + 1)) := by
  intro fuel
  induction fuel with
  | zero => intro j hj hf; omega
  | succ f ih =>
    intro j hj hf
    have hg : ∀ m : Nat, GetGraphTile (chainReader N L) (chainGid m) =
        some (chainTile N L) := fun m => rfl
    have hset : ∀ m : Nat, (chainTile N L).graphid.set_id m = chainGid m :=
      fun m => rfl
    have hlen : (chainTile N L).nodes.length = N + 1 := by
      simp [chainTile]
    have hlenS : (chainEdge N L 0).length = N * L := by rw [chainEdge_S]
    simp only [RecoverShortcutLoop, chainEdge_fwd N L j hj]
    by_cases hend : j + 1 = N
    · rw [hend]
      have hcondT : ((chainGid N : GraphId) == (chainEdge N L 0).endnode) = true := by
        simp [chainEdge_S]
      simp only [hcondT, cond_true, hlenS]
      rw [decide_eq_false (lt_irrefl (N * L))]
      simp only [cond_false]
    · have hbeq : ((chainGid (j + 1) : GraphId) == (chainEdge N L 0).endnode) =
          false := by
        rw [chainEdge_S]
        simp only [beq_eq_false_iff_ne, ne_eq, chainGid, GraphId.mk.injEq]
        omega
      simp only [hbeq, cond_false]
      unfold GetEndNode
      simp only [baseEdge_leaves_tile, cond_false, chainGid_id, hlen]
      rw [decide_eq_true (show j + 1 < N + 1 by omega)]
      simp only [cond_true]
      have hb2 : (chainTile N L).directededges[2 * (j + 1)]? =
          some { baseEdge with
              endnode := chainGid j, opp_index := 1,
              superseded := 0, length := L } := by
        rw [show 2 * (j + 1) = 2 * j + 2 by omega,
          chainTile_edge N L (2 * j + 2) (by omega), chainEdge_bwd N L j hj,
          if_neg (by omega)]
      have hfw : chainEdge N L (2 * (j + 1) + 1) =
          { baseEdge with
              endnode := chainGid (j + 2), opp_index := 0,
              superseded := 0, length := L } := by
        rw [chainEdge_fwd N L (j + 1) (by omega), if_neg (by omega),
          show j + 1 + 1 = j + 2 by omega]
      have hGDE : (chainTile N L).GetDirectedEdges (j + 1) =
          [(2 * (j + 1),
            { baseEdge with
                endnode := chainGid j, opp_index := 1,
                superseded := 0, length := L }),
           (2 * (j + 1) + 1,
            { baseEdge with
                endnode := chainGid (j + 2), opp_index := 0,
                superseded := 0, length := L })] := by
        unfold GraphTile.GetDirectedEdges GraphTile.GetDirectedEdgesOf
        simp only [chainTile_node N L (j + 1) (by omega), chainNode_ei, chainNode_ec]
        have hr2 : List.range 2 = [0, 1] := rfl
        simp only [hr2, List.filterMap_cons, List.filterMap_nil, Nat.add_zero]
        simp only [hb2, chainTile_edge N L (2 * (j + 1) + 1) (by omega), hfw,
          Option.map_some']
      have hm1 : recoverMatch (chainEdge N L 0) (chainGid j)
          ({ baseEdge with
              endnode := chainGid j, opp_index := 1,
              superseded := 0, length := L } : DirectedEdge) = false := by
        unfold recoverMatch
        simp [bne_self_eq_false]
      have hm2 : recoverMatch (chainEdge N L 0) (chainGid j)
          ({ baseEdge with
              endnode := chainGid (j + 2), opp_index := 0,
              superseded := 0, length := L } : DirectedEdge) = true := by
        have hne2 : chainGid j ≠ chainGid (j + 2) := by
          intro hcon
          have h2 := congrArg GraphId.id hcon
          simp only [chainGid_id] at h2
          omega
        unfold recoverMatch
        rw [chainEdge_S]
        simp [DirectedEdge.is_shortcut, bne_iff_ne, hne2, kAutoAccess]
      have hfind : ((chainTile N L).GetDirectedEdges (j + 1)).find? (fun p =>
          recoverMatch (chainEdge N L 0) (chainGid j) p.2) =
          some (2 * (j + 1) + 1,
            { baseEdge with
                endnode := chainGid (j + 2), opp_index := 0,
                superseded := 0, length := L }) := by
        rw [hGDE]
        rw [List.find?_cons_of_neg _ (by simpa using hm1)]
        rw [List.find?_cons_of_pos _ (by simpa using hm2)]
      simp only [hfind, hset, hlenS]
      rw [decide_eq_false (show ¬ (N * L < (j + 1) * L + L) by
        have h3 : (j + 2) * L ≤ N * L := Nat.mul_le_mul_right L (by omega)
        have h4 : (j + 2) * L = (j + 1) * L + L := by ring
        omega)]
      simp only [cond_false]
      have hed : ((List.range (j + 1)).map (fun k => chainGid (2 * k + 1))) ++
          [chainGid (2 * (j + 1) + 1)] =
          (List.range (j + 1 + 1)).map (fun k => chainGid (2 * k + 1)) := by
        nth_rewrite 2 [List.range_succ]
        rw [List.map_append]
        rfl
      rw [hed]
      have hacc : (j + 1) * L + L = (j + 1 + 1) * L := by ring
      rw [hacc]
      rw [← hfw]
      exact ih (j + 1) (by omega) (by omega)

lemma chain_RecoverShortcut (N L fuel : Nat) (hN : 0 < N) (hfu : N ≤ fuel) :
    RecoverShortcut (chainReader N L) fuel (chainGid 0) =
      (List.range N).map (fun k => chainGid (2 * k + 1)) := by
  have hg : ∀ m : Nat, GetGraphTile (chainReader N L) (chainGid m) =
      some (chainTile N L) := fun m => rfl
  have hset : ∀ m : Nat, (chainTile N L).graphid.set_id m = chainGid m :=
    fun m => rfl
  have hf0 : chainEdge N L 1 =
      { baseEdge with
          endnode := chainGid 1, opp_index := 0, superseded := 1, length := L } := by
    have := chainEdge_fwd N L 0 hN
    simpa using this
  have hsc : (chainEdge N L 0).is_shortcut = true := by
    simp [chainEdge_S, DirectedEdge.is_shortcut]
  have hsup0 : (chainEdge N L 0).superseded = 0 := by
    rw [chainEdge_S]
    rfl
  have hscf : (chainEdge N L 0).shortcut = 1 := by
    rw [chainEdge_S]
  have hlen1 : (chainEdge N L 1).length = L := by rw [hf0]
  have hGDE0 : (chainTile N L).GetDirectedEdges 0 =
      [(0, chainEdge N L 0), (1, chainEdge N L 1)] := by
    unfold GraphTile.GetDirectedEdges GraphTile.GetDirectedEdgesOf
    simp only [chainTile_node N L 0 (by omega), chainNode_ei, chainNode_ec,
      Nat.mul_zero, Nat.zero_add]
    have hr2 : List.range 2 = [0, 1] := rfl
    simp only [hr2, List.filterMap_cons, List.filterMap_nil, Nat.add_zero,
      Nat.zero_add]
    simp only [chainTile_edge N L 0 (by omega), chainTile_edge N L 1 (by omega),
      Option.map_some']
  have hfind0 : ((chainTile N L).GetDirectedEdges 0).find? (fun p =>
      ((chainEdge N L 0).shortcut &&& p.2.superseded) != 0) =
      some (1, chainEdge N L 1) := by
    rw [hGDE0]
    rw [List.find?_cons_of_neg _ (by simp [hscf, hsup0])]
    rw [List.find?_cons_of_pos _ (by simp [hscf, hf0])]
  unfold RecoverShortcut
  simp only [hg, chainGid_id, chainTile_edge N L 0 (by omega)]
  simp only [hsc, Bool.not_true, cond_false]
  rw [chain_startnode]
  have hv : (chainGid 0).Is_Valid = true := rfl
  simp only [hv, Bool.not_true, cond_false, chainGid_id]
  simp only [hfind0, hset, hlen1]
  have h6 := chain_recover_loop N L fuel 0 (by omega) (by omega)
  norm_num at h6
  rw [show ([chainGid 1] : List GraphId) =
    (List.range 1).map (fun k => chainGid (2 * k + 1)) from rfl]
  exact h6

lemma chain_sum (N L : Nat) :
    sumEdgeLengths (chainReader N L)
      ((List.range N).map (fun k => chainGid (2 * k + 1))) = N * L := by
  have hg : ∀ m : Nat, GetGraphTile (chainReader N L) (chainGid m) =
      some (chainTile N L) := fun m => rfl
  unfold sumEdgeLengths
  rw [List.map_map]
  have hone : ∀ k ∈ List.range N,
      (edgeLenAt (chainReader N L) ∘ fun k => chainGid (2 * k + 1)) k =
        (fun _ : Nat => L) k := by
    intro k hk
    have hk2 : k < N := List.mem_range.mp hk
    show edgeLenAt (chainReader N L) (chainGid (2 * k + 1)) = L
    unfold edgeLenAt edgeAt
    simp only [hg, chainGid_id, chainTile_edge N L (2 * k + 1) (by omega),
      chainEdge_fwd N L k hk2]
  rw [List.map_congr_left hone]
  have hrep : (List.range N).map (fun _ : Nat => L) = List.replicate N L := by
    rw [List.map_const', List.length_range]
  rw [hrep, List.sum_replicate, smul_eq_mul]

/-- C1: on the well-formed synthetic chain of N attribute-identical base
edges of length L contracted under one shortcut (chainReader), GetShortcut
on any forward member edge returns the shortcut's edge id, RecoverShortcut
on that shortcut id returns exactly the N original forward edge ids in
chain order, and the accumulated length of the recovered edges equals the
shortcut's recorded length N*L. -/
theorem C1_chain_roundtrip (N L i fuel : Nat) (hN : 1 ≤ N) (hi : i < N)
    (hfu : N ≤ fuel) :
    GetShortcut (chainReader N L) fuel (chainGid (2 * i + 1)) = chainGid 0 ∧
    RecoverShortcut (chainReader N L) fuel (chainGid 0) =
      (List.range N).map (fun k => chainGid (2 * k + 1)) ∧
    sumEdgeLengths (chainReader N L)
      (RecoverShortcut (chainReader N L) fuel (chainGid 0)) =
      (chainEdge N L 0).length ∧
    (chainEdge N L 0).length = N * L := by
  have hlenS : (chainEdge N L 0).length = N * L := by rw [chainEdge_S]
  have h2 := chain_RecoverShortcut N L fuel (by omega) hfu
  refine ⟨chain_GetShortcut N L i fuel hi (by omega), h2, ?_, hlenS⟩
  rw [h2, chain_sum, hlenS]

theorem C1_chain_roundtrip_witness :
    GetShortcut (chainReader 2 3) 2 (chainGid (2 * 1 + 1)) = chainGid 0 ∧
    RecoverShortcut (chainReader 2 3) 2 (chainGid 0) =
      (List.range 2).map (fun k => chainGid (2 * k + 1)) ∧
    sumEdgeLengths (chainReader 2 3)
      (RecoverShortcut (chainReader 2 3) 2 (chainGid 0)) =
      (chainEdge 2 3 0).length ∧
    (chainEdge 2 3 0).length = 2 * 3 :=
  C1_chain_roundtrip 2 3 1 2 (by decide) (by decide) (by decide)

theorem C7_intersect_witness :
    (5, 18) ∈ tilesC7.Intersect [(-1, -1), (1, 1)] ↔
      ∃ p ∈ tilesC7.allCellsXY, (5, 18) = tilesC7.cellOf p.1 p.2 ∧
        ∃ ab ∈ ([((-1 : ℚ), (-1 : ℚ)), (1, 1)]).zip
            ([((-1 : ℚ), (-1 : ℚ)), (1, 1)]).tail,
          segTouchesBox ab.1.1 ab.1.2 ab.2.1 ab.2.2
            (tilesC7.cellBoxXY p.1 p.2) = true :=
  C7_intersect.1 tilesC7 [(-1, -1), (1, 1)] (5, 18) (by decide)
